import Mathlib

/-!
Verification of the prmxctrl schema-to-code generation engine.

This file shallowly embeds the core of the generator (schema parser, type
mapper, model generator, endpoint generator and the driving pipeline) as
executable Lean definitions, translated from the Python source under
`src/generator` and `src/tools/generate.py`, and proves the specified
properties about them.

Conventions of the embedding:
* Python strings are Lean `String`s (lists of characters).
* Python `None`-able values are `Option`s; Python dict keys that may be
  absent are `Option` fields defaulted to `none`.
* Python dicts used as ordered tables (insertion-ordered) are association
  lists `List (key × value)`.
* Mutable per-instance counters (`dict[str, int]` with a default of `0`)
  are total functions `String → Nat` threaded through state-passing style.
* Exceptions are `Except`: the parser's failure on a missing mandatory key
  is the error value `SchemaError.missingKey`.
-/

/-- Characters matched by the identifier class `[a-zA-Z0-9_]` used in
`ModelGenerator._sanitize_field_name` and in the parser's `\w` pattern. -/
def isWordChar (c : Char) : Bool :=
  (('a' ≤ c && c ≤ 'z') || ('A' ≤ c && c ≤ 'Z') || ('0' ≤ c && c ≤ '9') || c = '_')

/-- Decimal digits with a fuel bound (structural recursion so that
concrete counters evaluate definitionally); any fuel above the digit
count gives the same answer. -/
def natDigitsAux : Nat → Nat → List Char
  | 0, _ => []
  | fuel + 1, n =>
    if n < 10 then [Nat.digitChar n]
    else natDigitsAux fuel (n / 10) ++ [Nat.digitChar (n % 10)]

/-- Decimal digits of a natural number, most significant first; the
embedding of Python's `str(n)` / f-string formatting for a nonnegative
integer counter. -/
def natDigits (n : Nat) : List Char := natDigitsAux (n + 1) n

theorem natDigitsAux_congr :
    ∀ (f₁ f₂ n : Nat), n < f₁ → n < f₂ → natDigitsAux f₁ n = natDigitsAux f₂ n := by
  intro f₁
  induction f₁ with
  | zero => intro f₂ n h₁; omega
  | succ f₁ ih =>
    intro f₂ n h₁ h₂
    cases f₂ with
    | zero => omega
    | succ f₂ =>
      unfold natDigitsAux
      by_cases h : n < 10
      · rw [if_pos h, if_pos h]
      · rw [if_neg h, if_neg h]
        have hdiv : n / 10 < n := Nat.div_lt_self (by omega) (by norm_num)
        rw [ih f₂ (n / 10) (by omega) (by omega)]

theorem natDigitsAux_succ (f n : Nat) :
    natDigitsAux (f + 1) n =
      if n < 10 then [Nat.digitChar n]
      else natDigitsAux f (n / 10) ++ [Nat.digitChar (n % 10)] := rfl

/-- The recursion of Python decimal formatting, recovered from the fuel
form. -/
theorem natDigits_eq (n : Nat) :
    natDigits n =
      if n < 10 then [Nat.digitChar n]
      else natDigits (n / 10) ++ [Nat.digitChar (n % 10)] := by
  unfold natDigits
  rw [natDigitsAux_succ]
  by_cases h : n < 10
  · rw [if_pos h, if_pos h]
  · rw [if_neg h, if_neg h]
    have hdiv : n / 10 < n := Nat.div_lt_self (by omega) (by norm_num)
    rw [natDigitsAux_congr n (n / 10 + 1) (n / 10) (by omega) (by omega)]

/-- Embedding of Python `str(n)` for a nonnegative integer. -/
def natStr (n : Nat) : String := ⟨natDigits n⟩

/-- Numeric evaluation of a digit character. -/
def charDigitVal (c : Char) : Nat := c.toNat - '0'.toNat

theorem charDigitVal_digitChar {d : Nat} (h : d < 10) :
    charDigitVal (Nat.digitChar d) = d := by
  interval_cases d <;> decide

theorem digitChar_isDigit {d : Nat} (h : d < 10) :
    (Nat.digitChar d).isDigit = true := by
  interval_cases d <;> decide

/-- Fold digits back to the number they denote. -/
def digitsVal (l : List Char) : Nat :=
  l.foldl (fun a c => 10 * a + charDigitVal c) 0

theorem digitsVal_append_singleton (l : List Char) (c : Char) :
    digitsVal (l ++ [c]) = 10 * digitsVal l + charDigitVal c := by
  simp [digitsVal, List.foldl_append]

theorem digitsVal_natDigits (n : Nat) : digitsVal (natDigits n) = n := by
  induction n using Nat.strong_induction_on with
  | _ n ih =>
    by_cases h : n < 10
    · rw [natDigits_eq, if_pos h]
      simp [digitsVal, charDigitVal_digitChar h]
    · rw [natDigits_eq, if_neg h]
      rw [digitsVal_append_singleton,
        ih (n / 10) (Nat.div_lt_self (by omega) (by norm_num)),
        charDigitVal_digitChar (Nat.mod_lt n (by norm_num))]
      omega

theorem natDigits_injective : Function.Injective natDigits := by
  intro a b h
  have := digitsVal_natDigits a
  rw [h, digitsVal_natDigits] at this
  omega

theorem natDigits_ne_nil (n : Nat) : natDigits n ≠ [] := by
  by_cases h : n < 10
  · rw [natDigits_eq, if_pos h]; simp
  · rw [natDigits_eq, if_neg h]; simp

theorem natDigits_all_digit (n : Nat) :
    ∀ c ∈ natDigits n, c.isDigit = true := by
  induction n using Nat.strong_induction_on with
  | _ n ih =>
    by_cases h : n < 10
    · rw [natDigits_eq, if_pos h]
      intro c hc
      simp only [List.mem_singleton] at hc
      exact hc ▸ digitChar_isDigit h
    · rw [natDigits_eq, if_neg h]
      intro c hc
      rcases List.mem_append.mp hc with h1 | h2
      · exact ih (n / 10) (Nat.div_lt_self (by omega) (by norm_num)) c h1
      · simp only [List.mem_singleton] at h2
        exact h2 ▸ digitChar_isDigit (Nat.mod_lt n (by norm_num))

/-- The counter-to-name scheme shared (textually duplicated in the source)
by `EndpointGenerator._generate_class_name` and
`ModelGenerator._ensure_unique_name`: counter `0` yields the bare base
name, a positive counter is appended in decimal. -/
def mkName (base : String) (c : Nat) : String :=
  if c = 0 then base else base ++ natStr c

/-- A string whose last character exists and is not a decimal digit.
Every base name produced by the generators ends in `"Endpoints"`,
`"Request"` or `"Response"`, so it satisfies this. -/
def lastNonDigit (s : String) : Bool :=
  match s.data.getLast? with
  | some c => !c.isDigit
  | none => false

theorem takeWhile_append_of_all {p : Char → Bool} :
    ∀ (xs ys : List Char), (∀ c ∈ xs, p c = true) →
      List.takeWhile p (xs ++ ys) = xs ++ List.takeWhile p ys := by
  intro xs ys hall
  induction xs with
  | nil => simp
  | cons a t ih =>
    have ha : p a = true := hall a (by simp)
    simp only [List.cons_append, List.takeWhile_cons, ha, if_true]
    rw [ih (fun c hc => hall c (by simp [hc]))]

theorem takeWhile_head_false {p : Char → Bool} {xs : List Char}
    (h : ∀ c ∈ xs.head?, p c = false) :
    List.takeWhile p xs = [] := by
  cases xs with
  | nil => rfl
  | cons a t =>
    have := h a (by simp)
    simp [List.takeWhile_cons, this]

/-- Splitting off a maximal digit suffix: if `l` ends in a non-digit and
`s` is all digits, then reversing `l ++ s` and taking digits recovers
exactly `s.reverse`. -/
theorem digit_suffix_split {l s : List Char}
    (hl : ∀ c ∈ l.reverse.head?, c.isDigit = false)
    (hs : ∀ c ∈ s, c.isDigit = true) :
    (l ++ s).reverse.takeWhile Char.isDigit = s.reverse := by
  rw [List.reverse_append]
  rw [takeWhile_append_of_all s.reverse l.reverse
    (fun c hc => hs c (List.mem_reverse.mp hc))]
  rw [takeWhile_head_false hl]
  simp

theorem head_reverse_not_digit {l : List Char}
    (h : ∀ c ∈ l.getLast?, c.isDigit = false) :
    ∀ c ∈ l.reverse.head?, c.isDigit = false := by
  intro c hc
  apply h
  rwa [← List.head?_reverse]

/-- Cancellation: a string with a non-digit last character followed by a
digit string decomposes uniquely. -/
theorem append_digits_cancel {l₁ l₂ s₁ s₂ : List Char}
    (h : l₁ ++ s₁ = l₂ ++ s₂)
    (hl₁ : ∀ c ∈ l₁.getLast?, c.isDigit = false)
    (hl₂ : ∀ c ∈ l₂.getLast?, c.isDigit = false)
    (hs₁ : ∀ c ∈ s₁, c.isDigit = true)
    (hs₂ : ∀ c ∈ s₂, c.isDigit = true) :
    l₁ = l₂ ∧ s₁ = s₂ := by
  have h₁ := digit_suffix_split (head_reverse_not_digit hl₁) hs₁
  have h₂ := digit_suffix_split (head_reverse_not_digit hl₂) hs₂
  rw [h] at h₁
  rw [h₁] at h₂
  have hsuf : s₁ = s₂ := by
    have := congrArg List.reverse h₂
    simpa using this
  refine ⟨?_, hsuf⟩
  rw [hsuf] at h
  exact List.append_cancel_right h

theorem mkName_getLast?_of_zero (b : String) : (mkName b 0) = b := by
  simp [mkName]

theorem mkName_data (b : String) (c : Nat) :
    (mkName b c).data = b.data ++ (if c = 0 then [] else natDigits c) := by
  by_cases h : c = 0 <;> simp [mkName, h, natStr, String.data_append]

/-- Injectivity of the name scheme over bases ending in a non-digit:
the core of the uniqueness invariant for generated class and model
names. -/
theorem mkName_injOn {b₁ b₂ : String} {c₁ c₂ : Nat}
    (h₁ : lastNonDigit b₁ = true) (h₂ : lastNonDigit b₂ = true)
    (h : mkName b₁ c₁ = mkName b₂ c₂) : b₁ = b₂ ∧ c₁ = c₂ := by
  have hd : (mkName b₁ c₁).data = (mkName b₂ c₂).data := by rw [h]
  rw [mkName_data, mkName_data] at hd
  have hl₁ : ∀ c ∈ b₁.data.getLast?, c.isDigit = false := by
    intro c hc
    unfold lastNonDigit at h₁
    cases hg : b₁.data.getLast? with
    | none => rw [hg] at hc; simp at hc
    | some d =>
      rw [hg] at hc h₁
      simp only [Option.mem_def, Option.some.injEq] at hc
      subst hc
      simpa using h₁
  have hl₂ : ∀ c ∈ b₂.data.getLast?, c.isDigit = false := by
    intro c hc
    unfold lastNonDigit at h₂
    cases hg : b₂.data.getLast? with
    | none => rw [hg] at hc; simp at hc
    | some d =>
      rw [hg] at hc h₂
      simp only [Option.mem_def, Option.some.injEq] at hc
      subst hc
      simpa using h₂
  have hs₁ : ∀ ch ∈ (if c₁ = 0 then ([] : List Char) else natDigits c₁), ch.isDigit = true := by
    by_cases hc : c₁ = 0 <;> simp [hc]
    exact fun ch hch => natDigits_all_digit c₁ ch hch
  have hs₂ : ∀ ch ∈ (if c₂ = 0 then ([] : List Char) else natDigits c₂), ch.isDigit = true := by
    by_cases hc : c₂ = 0 <;> simp [hc]
    exact fun ch hch => natDigits_all_digit c₂ ch hch
  obtain ⟨hb, hsfx⟩ := append_digits_cancel hd hl₁ hl₂ hs₁ hs₂
  refine ⟨String.ext hb, ?_⟩
  by_cases hz₁ : c₁ = 0 <;> by_cases hz₂ : c₂ = 0
  · omega
  · rw [if_pos hz₁, if_neg hz₂] at hsfx
    exact absurd hsfx.symm (natDigits_ne_nil c₂)
  · rw [if_neg hz₁, if_pos hz₂] at hsfx
    exact absurd hsfx (natDigits_ne_nil c₁)
  · rw [if_neg hz₁, if_neg hz₂] at hsfx
    exact natDigits_injective hsfx

/-! ### Python string helpers used throughout the generators -/

/-- The set of Python reserved words guarded against by the generators.
The source repeats this literal set at each call site
(`_get_file_path`, `_get_method_name`, `_generate_property`,
`_generate_call_method`, `_sanitize_field_name`); all sites list the
same 35 words, so the embedding shares one definition. -/
def pythonKeywords : List String :=
  ["False", "None", "True", "and", "as", "assert", "async", "await",
   "break", "class", "continue", "def", "del", "elif", "else", "except",
   "finally", "for", "from", "global", "if", "import", "in", "is",
   "lambda", "nonlocal", "not", "or", "pass", "raise", "return", "try",
   "while", "with", "yield"]

/-- Append an underscore when the candidate collides with a Python
reserved word (the `if name in python_keywords: name += "_"` idiom). -/
def keywordFix (s : String) : String :=
  if s ∈ pythonKeywords then s ++ "_" else s

/-- Python `str.title()` restricted to its behaviour on the generator's
inputs: a letter is uppercased when the previous character is not a
letter, lowercased otherwise; non-letters pass through. -/
def pyTitleAux : Bool → List Char → List Char
  | _, [] => []
  | prevAlpha, c :: cs =>
    (if c.isAlpha then (if prevAlpha then c.toLower else c.toUpper) else c)
      :: pyTitleAux c.isAlpha cs

/-- Python `str.title()`. -/
def pyTitle (s : String) : String := ⟨pyTitleAux false s.data⟩

/-- Python `str.capitalize()`: first character uppercased, the rest
lowercased. -/
def pyCapitalize (s : String) : String :=
  match s.data with
  | [] => ""
  | c :: cs => ⟨c.toUpper :: cs.map Char.toLower⟩

/-- Python `s.replace(old, new)` for single-character old/new, as used by
the generators (`replace("-", "_")`, `replace("/", "_")`). -/
def charReplace (old new : Char) (s : String) : String :=
  ⟨s.data.map (fun c => if c = old then new else c)⟩

/-- Python `s.strip(chars)` for a set of characters: drop them from both
ends. -/
def pyStrip (chars : List Char) (s : String) : String :=
  ⟨((s.data.dropWhile (· ∈ chars)).reverse.dropWhile (· ∈ chars)).reverse⟩

/-- List-prefix test, structurally. -/
def startsWithList : List Char → List Char → Bool
  | [], _ => true
  | _ :: _, [] => false
  | p :: ps, t :: ts => p = t && startsWithList ps ts

/-- Python `s.startswith(pre)`. -/
def strStartsWith (s pre : String) : Bool := startsWithList pre.data s.data

/-- Python `s.endswith(suf)`. -/
def strEndsWith (s suf : String) : Bool :=
  startsWithList suf.data.reverse s.data.reverse

/-- Python `s.split(sep)` for a one-character separator (accumulator
form). -/
def splitOnCharAux (sep : Char) : List Char → List Char → List String
  | [], acc => [String.mk acc.reverse]
  | c :: cs, acc =>
    if c = sep then String.mk acc.reverse :: splitOnCharAux sep cs []
    else splitOnCharAux sep cs (c :: acc)

/-- Python `s.split(sep)` for a one-character separator. -/
def pySplit (sep : Char) (s : String) : List String :=
  splitOnCharAux sep s.data []

/-- Replace every occurrence of a (nonempty) pattern, scanning left to
right with a fuel bound of the text length (Python
`s.replace(old, new)`). -/
def replaceListAux (pat repl : List Char) : Nat → List Char → List Char
  | _, [] => []
  | 0, l => l
  | fuel + 1, c :: cs =>
    if startsWithList pat (c :: cs) && !pat.isEmpty then
      repl ++ replaceListAux pat repl fuel (List.drop pat.length (c :: cs))
    else
      c :: replaceListAux pat repl fuel cs

/-- Python `s.replace(old, new)` for a nonempty `old`. -/
def pyReplace (s pat repl : String) : String :=
  ⟨replaceListAux pat.data repl.data s.data.length s.data⟩

/-- Lexicographic string comparison by character code, the order
Python's `sorted` uses on strings. -/
def strLeList : List Char → List Char → Bool
  | [], _ => true
  | _ :: _, [] => false
  | a :: as, b :: bs => if a = b then strLeList as bs else decide (a < b)

/-- String comparison for sorting. -/
def strLe (a b : String) : Bool := strLeList a.data b.data

/-- Insert into a sorted list. -/
def insertSorted (x : String) : List String → List String
  | [] => [x]
  | y :: ys => if strLe x y then x :: y :: ys else y :: insertSorted x ys

/-- Ascending sort of strings (Python `sorted`). -/
def sortStrings : List String → List String
  | [] => []
  | x :: xs => insertSorted x (sortStrings xs)

/-- Keep-first deduplication with a seen accumulator (the effect of
Python's `set(...)` before sorting: membership, not order, matters). -/
def dedupSeen : List String → List String → List String
  | _, [] => []
  | seen, x :: xs =>
    if seen.contains x then dedupSeen seen xs
    else x :: dedupSeen (x :: seen) xs

/-- Distinct members of a list, first occurrences kept. -/
def listDedup (l : List String) : List String := dedupSeen [] l

/-- The ubiquitous `path.strip("/").split("/")` with empty parts
filtered (`[p for p in ... if p]`). -/
def pathParts (path : String) : List String :=
  ((pySplit '/' (pyStrip ['/'] path)).filter (fun p => p ≠ ""))

/-- Extraction of `{param}` placeholders, the embedding of
`re.findall(r"\{(\w+)\}", path)` in `SchemaParser._parse_node`:
scan left to right; at each `\x7b` try to match one-or-more word
characters followed by `\x7d`, else advance one character. -/
def extractParamsAux : Nat → List Char → List String
  | 0, _ => []
  | _, [] => []
  | fuel + 1, c :: rest =>
    if c = '{' then
      match rest.dropWhile isWordChar with
      | '}' :: tail =>
        if (rest.takeWhile isWordChar).isEmpty then extractParamsAux fuel rest
        else String.mk (rest.takeWhile isWordChar) :: extractParamsAux fuel tail
      | _ => extractParamsAux fuel rest
    else extractParamsAux fuel rest

def extractParams (path : String) : List String :=
  extractParamsAux path.data.length path.data

/-! ### Data model (from `src/generator/parse_schema.py`) -/

/-- A Python scalar value as it occurs in schema defaults. -/
inductive PyVal where
  | s (v : String)
  | i (v : Int)
  | b (v : Bool)
  deriving DecidableEq, Repr

/-- `Parameter` dataclass: API parameter definition with validation
constraints. -/
structure Parameter where
  name : String
  type_ : String
  description : Option String := none
  optional : Bool := false
  default : Option PyVal := none
  format : Option String := none
  minimum : Option Int := none
  maximum : Option Int := none
  max_length : Option Int := none
  pattern : Option String := none
  enum : Option (List String) := none
  hasProperties : Bool := false
  deriving DecidableEq, Repr

/-- The parameter-specification dictionary consumed by
`TypeMapper.map_parameter_type`: the keyed fields it reads via `.get`,
with the recursive `items` sub-spec of array parameters.  The request
model generator builds this dict from a `Parameter`; response `items`
dicts come straight from the raw schema.  `exclusiveMinimum`,
`exclusiveMaximum`, `minLength` and `description` are never present in
the dict built by `_generate_request_model` but the mapper reads them,
so they are kept as optional fields defaulting to absent. -/
structure ParamSpecCore where
  type_ : Option String := none
  format : Option String := none
  optional : Bool := false
  default : Option PyVal := none
  minimum : Option Int := none
  maximum : Option Int := none
  maxLength : Option Int := none
  pattern : Option String := none
  enum : Option (List String) := none
  hasProperties : Bool := false
  description : Option String := none
  minLength : Option Int := none
  exclusiveMinimum : Option Int := none
  exclusiveMaximum : Option Int := none
  deriving DecidableEq, Repr

/-- A parameter spec together with its optional array-item sub-spec. -/
inductive ParamSpec where
  | mk (core : ParamSpecCore) (items : Option ParamSpec)
  deriving Repr

def ParamSpec.core : ParamSpec → ParamSpecCore
  | .mk c _ => c

def ParamSpec.items : ParamSpec → Option ParamSpec
  | .mk _ i => i

/-- A spec with no array-item sub-spec. -/
def ParamSpec.ofCore (c : ParamSpecCore) : ParamSpec := .mk c none

/-- `Response` dataclass: API response definition.  `items` is the raw
array-element spec that `_generate_response_model` feeds back into the
type mapper. -/
structure Response where
  type_ : String
  description : Option String := none
  hasProperties : Bool := false
  items : Option ParamSpec := none
  deriving Repr

/-- `Method` dataclass: HTTP method definition.  `method` is the HTTP
verb string (the dataclass annotates it as a literal of
GET/POST/PUT/DELETE, but the parser stores whatever key the raw `info`
mapping uses). -/
structure Method where
  method : String
  name : String
  description : Option String := none
  parameters : List Parameter := []
  returns : Option Response := none
  protected_ : Bool := false
  proxyto : Option String := none
  deriving Repr

/-- `Endpoint` dataclass: API endpoint definition with hierarchical
structure.  `methods` is an insertion-ordered mapping verb → Method. -/
inductive Endpoint where
  | mk (path : String) (text : String) (leaf : Bool)
       (methods : List (String × Method)) (children : List Endpoint)
       (path_params : List String) (python_path : String)
       (class_name : String)
  deriving Repr

def Endpoint.path : Endpoint → String
  | .mk p _ _ _ _ _ _ _ => p

def Endpoint.text : Endpoint → String
  | .mk _ t _ _ _ _ _ _ => t

def Endpoint.leaf : Endpoint → Bool
  | .mk _ _ l _ _ _ _ _ => l

def Endpoint.methods : Endpoint → List (String × Method)
  | .mk _ _ _ m _ _ _ _ => m

def Endpoint.children : Endpoint → List Endpoint
  | .mk _ _ _ _ c _ _ _ => c

def Endpoint.path_params : Endpoint → List String
  | .mk _ _ _ _ _ pp _ _ => pp

/-! ### Parser (from `src/generator/parse_schema.py`) -/

/-- The raw parameter property object (`prop` in `_parse_parameter`):
a dictionary read with `.get`, so every field is optional. -/
structure RawParam where
  type_ : Option String := none
  description : Option String := none
  optional : Option Nat := none
  default : Option PyVal := none
  format : Option String := none
  minimum : Option Int := none
  maximum : Option Int := none
  maxLength : Option Int := none
  pattern : Option String := none
  enum : Option (List String) := none
  hasProperties : Bool := false
  deriving Repr

/-- Raw `returns` object. -/
structure RawReturns where
  type_ : Option String := none
  description : Option String := none
  hasProperties : Bool := false
  items : Option ParamSpec := none
  deriving Repr

/-- Raw per-verb `info` entry. -/
structure RawMethodInfo where
  name : Option String := none
  description : Option String := none
  parameters : Option (List (String × RawParam)) := none
  returns : Option RawReturns := none
  protected_ : Option Nat := none
  proxyto : Option String := none
  deriving Repr

/-- A raw schema tree node: `path` and `text` are the mandatory keys
(`Option` models their possible absence from the dictionary); `leaf`,
`info` and `children` are read defensively in the source (`.get` /
`in`-checks), so an absent `info`/`children` is the empty list. -/
inductive RawNode where
  | mk (path : Option String) (text : Option String) (leaf : Option Nat)
       (info : List (String × RawMethodInfo)) (children : List RawNode)
  deriving Repr

def RawNode.path : RawNode → Option String
  | .mk p _ _ _ _ => p

def RawNode.text : RawNode → Option String
  | .mk _ t _ _ _ => t

/-- The parse-time structural failure of the source (`node["path"]` /
`node["text"]` raising on an absent key); the specification names this
failure mode `SchemaMalformedError`. -/
inductive SchemaError where
  | missingKey (key : String)
  deriving DecidableEq, Repr

/-- `SchemaParser._parse_parameter`. -/
def parseParameter (name : String) (prop : RawParam) : Parameter :=
  { name := name
    type_ := prop.type_.getD "string"
    description := prop.description
    optional := prop.optional.getD 0 = 1
    default := prop.default
    format := prop.format
    minimum := prop.minimum
    maximum := prop.maximum
    max_length := prop.maxLength
    pattern := prop.pattern
    enum := prop.enum
    hasProperties := prop.hasProperties }

/-- `SchemaParser._parse_response`. -/
def parseResponse (r : RawReturns) : Response :=
  { type_ := r.type_.getD "object"
    description := r.description
    hasProperties := r.hasProperties
    items := r.items }

/-- `SchemaParser._parse_method`. -/
def parseMethod (methodName : String) (info : RawMethodInfo) : Method :=
  { method := methodName
    name := info.name.getD ""
    description := info.description
    protected_ := info.protected_.getD 0 = 1
    parameters :=
      match info.parameters with
      | none => []
      | some props => props.map (fun (n, p) => parseParameter n p)
    returns := info.returns.map parseResponse
    proxyto := info.proxyto }

/-- `SchemaParser._generate_python_path`. -/
def generatePythonPath (apiPath : String) : String :=
  let parts := pySplit '/' (pyStrip ['/'] apiPath)
  String.intercalate "."
    (parts.map (fun part => if part.data.contains '{' then "item" else part))

/-- `SchemaParser._generate_class_name` (the parser-side one, stored in
`Endpoint.class_name`; distinct from the endpoint generator's
allocator). -/
def parserGenerateClassName (apiPath : String) : String :=
  let parts := pySplit '/' (pyStrip ['/'] apiPath)
  String.join
    (parts.map (fun part =>
      if part.data.contains '{' then "Item" else pyCapitalize part))
    ++ "Endpoints"

mutual

/-- `SchemaParser._parse_node`: fails (whole-parse abort) when `path` or
`text` is absent; otherwise builds the `Endpoint` and recurses into the
children. -/
def parseNode : RawNode → Except SchemaError Endpoint
  | .mk path? text? leaf? info children => do
    let path ← match path? with
      | some p => pure p
      | none => throw (SchemaError.missingKey "path")
    let text ← match text? with
      | some t => pure t
      | none => throw (SchemaError.missingKey "text")
    let parsedChildren ← parseChildren children
    pure (Endpoint.mk path text (leaf?.getD 0 = 1)
      (info.map (fun (mn, mi) => (mn, parseMethod mn mi)))
      parsedChildren
      (extractParams path)
      (generatePythonPath path)
      (parserGenerateClassName path))
  termination_by structural n => n

/-- The recursive list comprehension
`[self._parse_node(child, path) for child in node["children"]]` under
exception semantics: the first failing child aborts. -/
def parseChildren : List RawNode → Except SchemaError (List Endpoint)
  | [] => pure []
  | c :: cs => do
    let e ← parseNode c
    let es ← parseChildren cs
    pure (e :: es)
  termination_by structural l => l

end

/-- `SchemaParser.parse`: the list comprehension
`[self._parse_node(node, "") for node in raw_schema]` under exception
semantics — the first failing node aborts the whole parse, returning no
partial list. -/
def parseSchema (raw : List RawNode) : Except SchemaError (List Endpoint) :=
  parseChildren raw

/-! ### Type mapper (from `src/generator/generators/type_mapper.py`) -/

/-- `TypeMapper.FORMAT_MAPPINGS`: Proxmox custom formats and their
Python equivalents. -/
def formatMappings : List (String × String) :=
  [("pve-node", "ProxmoxNode"),
   ("pve-node-list", "list[ProxmoxNode]"),
   ("pve-vmid", "ProxmoxVMID"),
   ("pve-vmid-list", "list[ProxmoxVMID]"),
   ("pve-storage-id", "str"),
   ("pve-storage-id-list", "list[str]"),
   ("pve-replication-job-id", "str"),
   ("pve-replication-job-id-list", "list[str]"),
   ("pve-configid-list", "str"),
   ("pve-timezone", "str"),
   ("pve-calendar-event", "str"),
   ("pve-iface", "str"),
   ("ipv4", "str"),
   ("ipv6", "str"),
   ("ip", "str"),
   ("cidr", "str"),
   ("mac-addr", "str"),
   ("pve-userid", "str"),
   ("pve-realm", "str"),
   ("email", "str"),
   ("uri", "str"),
   ("uuid", "str"),
   ("hostname", "str")]

/-- Dictionary lookup in `FORMAT_MAPPINGS`. -/
def formatLookup (f : String) : Option String :=
  (formatMappings.find? (fun kv => kv.1 = f)).map Prod.snd

/-- A numeric constraint value: Python `int(...)` or `float(...)` of a
schema bound (bounds are integers in the parsed schema, so the float
case is represented exactly by its integer value). -/
inductive NumVal where
  | int (v : Int)
  | float (v : Int)
  deriving DecidableEq, Repr

/-- The Pydantic `Field` keyword table built by
`TypeMapper._build_field_kwargs` (plus the `serialization_alias` key the
model generator may add afterwards).  Python's dict becomes a record
with one optional slot per key. -/
structure FieldKwargs where
  description : Option String := none
  default : Option PyVal := none
  ge : Option NumVal := none
  le : Option NumVal := none
  gt : Option NumVal := none
  lt : Option NumVal := none
  min_length : Option Int := none
  max_length : Option Int := none
  serialization_alias : Option String := none
  deriving DecidableEq, Repr

/-- `TypeMapper._build_field_kwargs`.  The `int(...)`/`float(...)`
conversions cannot fail on the integer-valued bounds of the parsed
schema, so the `except`-fallback branches of the source are dead here. -/
def buildFieldKwargs (spec : ParamSpecCore) (defaultValue : Option PyVal)
    (paramType : String) : FieldKwargs :=
  let numOf : Int → NumVal := fun m =>
    if paramType = "integer" then NumVal.int m else NumVal.float m
  let fk : FieldKwargs := {}
  let fk := { fk with description := spec.description }
  let fk :=
    match defaultValue with
    | some d => { fk with default := some d }
    | none => fk
  let fk :=
    if paramType = "integer" || paramType = "number" then
      let fk :=
        match spec.minimum with
        | some m => { fk with ge := some (numOf m) }
        | none => fk
      let fk :=
        match spec.maximum with
        | some m => { fk with le := some (numOf m) }
        | none => fk
      let fk :=
        match spec.exclusiveMinimum with
        | some m => { fk with gt := some (numOf m) }
        | none => fk
      match spec.exclusiveMaximum with
      | some m => { fk with lt := some (numOf m) }
      | none => fk
    else fk
  if paramType = "string" then
    let fk :=
      match spec.minLength with
      | some m => { fk with min_length := some m }
      | none => fk
    match spec.maxLength with
    | some m => { fk with max_length := some m }
    | none => fk
  else fk

/-- The literal set of a small enum: the member set, with a string
default folded in when it is not already a member, in sorted order.
This is the `all_values` / `sorted(all_values)` computation inside
`TypeMapper._map_string_type`.  (A non-string default together with a
string enum would make the source's `sorted` raise on mixed types; such
inputs are outside the embedding and modelled as not folding.) -/
def literalValues (enumValues : List String) (defaultValue : Option PyVal) :
    List String :=
  let allValues := listDedup enumValues
  let allValues :=
    match defaultValue with
    | some (PyVal.s d) => if allValues.contains d then allValues else allValues ++ [d]
    | _ => allValues
  sortStrings allValues

/-- Render a literal-union type from its member list (the f-string and
join inside `_map_string_type`). -/
def mkLiteralStr (l : List String) : String :=
  "Literal[" ++
    String.intercalate ", " (l.map (fun v => "\"" ++ v ++ "\"")) ++ "]"

/-- `TypeMapper._map_string_type`. -/
def mapStringType (spec : ParamSpecCore) (defaultValue : Option PyVal) : String :=
  match spec.enum with
  | some enumValues =>
    if enumValues.length ≤ 10 then
      mkLiteralStr (literalValues enumValues defaultValue)
    else
      "str"
  | none =>
    match spec.format with
    | some f =>
      match formatLookup f with
      | some t => t
      | none =>
        if f = "password" then "Password"
        else if f = "token" then "AuthToken"
        else "str"
    | none => "str"

/-- `TypeMapper._adjust_type_for_default`: kept for future edge cases in
the source; returns the type unchanged on every input. -/
def adjustTypeForDefault (pythonType : String) (defaultValue : Option PyVal) :
    String :=
  match defaultValue with
  | none => pythonType
  | some _ => pythonType

/-- `TypeMapper._map_primitive_type`.  Note the order of the steps,
faithful to the source: base mapping (including the enum-literal
handling inside the string branch), then the `FORMAT_MAPPINGS` override,
then the default adjustment, then the optional wrapper; the field
kwargs are built from the spec independently of `optional`. -/
def mapPrimitiveType (spec : ParamSpecCore) (_paramName : String)
    (isOptional : Bool) (defaultValue : Option PyVal) : String × FieldKwargs :=
  let paramType := spec.type_.getD "string"
  let pythonType :=
    if paramType = "string" then mapStringType spec defaultValue
    else if paramType = "integer" then "int | str"
    else if paramType = "number" then "float | str"
    else if paramType = "boolean" then "bool | int | str"
    else if paramType = "null" then "None"
    else "str"
  let pythonType :=
    match spec.format with
    | some f =>
      match formatLookup f with
      | some t => t
      | none => pythonType
    | none => pythonType
  let pythonType := adjustTypeForDefault pythonType defaultValue
  let pythonType := if isOptional then pythonType ++ " | None" else pythonType
  (pythonType, buildFieldKwargs spec defaultValue paramType)

/-- `TypeMapper._map_object_type`. -/
def mapObjectType (spec : ParamSpecCore) (isOptional : Bool)
    (defaultValue : Option PyVal) : String × FieldKwargs :=
  let pythonType := "dict[str, Any]"
  let pythonType := if isOptional then pythonType ++ " | None" else pythonType
  (pythonType, buildFieldKwargs spec defaultValue "object")

/-- `TypeMapper.map_parameter_type`: dispatch on the raw type.  The body
of `_map_array_type` is inlined at its unique call site so that the
recursion into the array-item sub-spec is structural; the standalone
`mapArrayType` below restates that method and is proved to agree. -/
def mapParameterType : ParamSpec → String → String × FieldKwargs
  | .mk core itemsOpt, paramName =>
    let paramType := core.type_.getD "string"
    let isOptional := core.optional
    let defaultValue := core.default
    if paramType = "array" then
      let pythonType :=
        match itemsOpt with
        | none => "list[Any]"
        | some itemsSpec =>
          "list[" ++ (mapParameterType itemsSpec (paramName ++ "_item")).1 ++ "]"
      let pythonType := if isOptional then pythonType ++ " | None" else pythonType
      (pythonType, buildFieldKwargs core defaultValue "array")
    else if paramType = "object" then
      mapObjectType core isOptional defaultValue
    else
      mapPrimitiveType core paramName isOptional defaultValue
  termination_by structural spec => spec

/-- `TypeMapper._map_array_type`, as the standalone classmethod of the
source. -/
def mapArrayType : ParamSpec → String → Bool → Option PyVal → String × FieldKwargs
  | .mk core itemsOpt, paramName, isOptional, defaultValue =>
    let pythonType :=
      match itemsOpt with
      | none => "list[Any]"
      | some itemsSpec =>
        "list[" ++ (mapParameterType itemsSpec (paramName ++ "_item")).1 ++ "]"
    let pythonType := if isOptional then pythonType ++ " | None" else pythonType
    (pythonType, buildFieldKwargs core defaultValue "array")

/-- The dispatcher sends array specs through `_map_array_type`
unchanged. -/
theorem mapParameterType_array (core : ParamSpecCore) (itemsOpt : Option ParamSpec)
    (paramName : String) (h : core.type_.getD "string" = "array") :
    mapParameterType (.mk core itemsOpt) paramName =
      mapArrayType (.mk core itemsOpt) paramName core.optional core.default := by
  cases itemsOpt <;> simp [mapParameterType, mapArrayType, h]

/-! ### Python string helpers for name derivation -/

/-- Python `str.upper()` on ASCII names. -/
def pyUpper (s : String) : String := ⟨s.data.map Char.toUpper⟩

/-- Python `str.lower()` on ASCII names. -/
def pyLower (s : String) : String := ⟨s.data.map Char.toLower⟩

/-- Remove every occurrence of a character (Python
`replace(c, "")`). -/
def charRemove (old : Char) (s : String) : String :=
  ⟨s.data.filter (fun c => c ≠ old)⟩

/-- Substring scan over the text. -/
def containsSubAux (sub : List Char) : List Char → Bool
  | [] => sub.isEmpty
  | c :: ts => startsWithList sub (c :: ts) || containsSubAux sub ts

/-- Python substring containment (`sub in s`). -/
def containsSubstr (s sub : String) : Bool :=
  containsSubAux sub.data s.data

/-- Ordered-dictionary update: overwrite in place, else append (Python
`d[k] = v`). -/
def dictSet {α : Type} : List (String × α) → String → α → List (String × α)
  | [], k, v => [(k, v)]
  | (k', v') :: rest, k, v =>
    if k' = k then (k, v) :: rest else (k', v') :: dictSet rest k v

/-- Ordered-dictionary lookup (Python `d.get(k)`). -/
def dictGet? {α : Type} (m : List (String × α)) (k : String) : Option α :=
  (m.find? (fun kv => kv.1 = k)).map Prod.snd

/-! ### Model generator (from `src/generator/generators/model_generator.py`) -/

/-- `ModelField` dataclass.  `typeAnn` embeds the source's
type-annotation string field. -/
structure ModelField where
  name : String
  typeAnn : String
  fieldKwargs : FieldKwargs
  description : Option String := none
  originalName : Option String := none
  deriving DecidableEq, Repr

/-- `PydanticModel` dataclass. -/
structure PydanticModel where
  name : String
  fields : List ModelField
  docstring : Option String := none
  baseClass : String := "BaseModel"
  deriving DecidableEq, Repr

/-- The mutable per-instance state of a `ModelGenerator`: the
per-base-name occurrence counters (`model_counter`, a
`defaultdict(int)`) and the `generated_models` table (written but never
read back during generation). -/
@[ext]
structure MGenState where
  modelCounter : String → Nat
  generatedModels : List (String × PydanticModel)

/-- `ModelGenerator.__init__`: freshly zeroed counters and an empty
model table. -/
def initMGenState : MGenState := { modelCounter := fun _ => 0, generatedModels := [] }

/-- `ModelGenerator._sanitize_field_name`: replace non-identifier
characters, prefix a leading digit, suffix a reserved word. -/
def sanitizeFieldName (name : String) : String :=
  let name : String := ⟨name.data.map (fun c => if isWordChar c then c else '_')⟩
  let name :=
    match name.data with
    | c :: _ => if c.isDigit then "field_" ++ name else name
    | [] => name
  if name ∈ pythonKeywords then name ++ "_" else name

/-- `ModelGenerator._generate_base_model_name`: slashes and hyphens to
underscores, braces removed, title-cased, leading underscore dropped,
then the upper-cased verb and the `"Request"`/`"Response"` suffix. -/
def generateBaseModelName (e : Endpoint) (methodName suffix : String) : String :=
  let path := pyTitle (charReplace '-' '_'
    (charRemove '}' (charRemove '{' (charReplace '/' '_' e.path))))
  let path := if strStartsWith path "_" then path.drop 1 else path
  path ++ pyUpper methodName ++ suffix

/-- `ModelGenerator._ensure_unique_name`: consume the per-base counter;
zero yields the bare base name, a positive counter is appended. -/
def ensureUniqueName (st : MGenState) (baseName : String) : String × MGenState :=
  let counter := st.modelCounter baseName
  let st' := { st with
    modelCounter := fun k => if k = baseName then counter + 1 else st.modelCounter k }
  if counter > 0 then (baseName ++ natStr counter, st') else (baseName, st')

/-- The `param_spec` dictionary built for each parameter inside
`ModelGenerator._generate_request_model` (no `items`, `description`,
`minLength` or exclusive-bound keys). -/
def paramSpecOfParameter (p : Parameter) : ParamSpec :=
  ParamSpec.ofCore
    { type_ := some p.type_
      format := p.format
      optional := p.optional
      default := p.default
      minimum := p.minimum
      maximum := p.maximum
      maxLength := p.max_length
      pattern := p.pattern
      enum := p.enum
      hasProperties := p.hasProperties }

/-- The per-parameter body of the field loop in
`ModelGenerator._generate_request_model`: map the type, attach the
description, and record the original wire name as a serialization alias
when sanitization changed the field name. -/
def requestField (p : Parameter) : ModelField :=
  let mapped := mapParameterType (paramSpecOfParameter p) p.name
  let kwargs := mapped.2
  let kwargs :=
    match p.description with
    | some d => if d = "" then kwargs else { kwargs with description := some d }
    | none => kwargs
  let sanitizedName := sanitizeFieldName p.name
  let kwargs :=
    if sanitizedName ≠ p.name then
      { kwargs with serialization_alias := some p.name }
    else kwargs
  { name := sanitizedName
    typeAnn := mapped.1
    fieldKwargs := kwargs
    description := p.description
    originalName := if sanitizedName ≠ p.name then some p.name else none }

/-- `ModelGenerator._generate_request_model`. -/
def generateRequestModel (st : MGenState) (e : Endpoint) (methodName : String)
    (m : Method) : Option PydanticModel × MGenState :=
  if m.parameters.isEmpty then (none, st)
  else
    let baseName := generateBaseModelName e methodName "Request"
    let (modelName, st) := ensureUniqueName st baseName
    let fields := m.parameters.map requestField
    if fields.isEmpty then (none, st)
    else
      let model : PydanticModel :=
        { name := modelName
          fields := fields
          docstring := some ("Request model for " ++ e.path ++ " " ++ pyUpper methodName) }
      (some model, { st with
        generatedModels := dictSet st.generatedModels modelName model })

/-- `ModelGenerator._generate_response_model`. -/
def generateResponseModel (st : MGenState) (e : Endpoint) (methodName : String)
    (m : Method) : Option PydanticModel × MGenState :=
  match m.returns with
  | none => (none, st)
  | some r =>
    if r.type_ = "null" then (none, st)
    else
      let baseName := generateBaseModelName e methodName "Response"
      let (modelName, st) := ensureUniqueName st baseName
      let typeAnn :=
        if r.type_ = "object" then "dict[str, Any]"
        else if r.type_ = "array" then
          match r.items with
          | some itemsSpec => "list[" ++ (mapParameterType itemsSpec "item").1 ++ "]"
          | none => "list[Any]"
        else
          (mapParameterType (ParamSpec.ofCore { type_ := some r.type_ }) "response").1
      let field : ModelField :=
        { name := "data"
          typeAnn := typeAnn
          fieldKwargs := { description := some ("Response data for " ++ pyUpper methodName) } }
      let model : PydanticModel :=
        { name := modelName
          fields := [field]
          docstring := some ("Response model for " ++ e.path ++ " " ++ pyUpper methodName) }
      (some model, { st with
        generatedModels := dictSet st.generatedModels modelName model })

/-- `ModelGenerator._get_module_name`: the first path component, or
`"common"`. -/
def getModuleName (e : Endpoint) : String :=
  let parts := pySplit '/' (pyStrip ['/'] e.path)
  match parts with
  | p :: _ => if p ≠ "" then p else "common"
  | [] => "common"

/-- The per-endpoint, per-method loop of
`ModelGenerator.generate_models_file_with_names`: request model (when
there are parameters) then response model (when there is a non-null
return), accumulating models and the base-name → actual-name map. -/
def generateModelsForEndpoint (st : MGenState)
    (acc : List PydanticModel × List (String × String)) (e : Endpoint) :
    (List PydanticModel × List (String × String)) × MGenState :=
  e.methods.foldl
    (fun (accSt : (List PydanticModel × List (String × String)) × MGenState) mm =>
      let (acc, st) := accSt
      let (methodName, m) := mm
      let (reqModel, st) :=
        if !m.parameters.isEmpty then generateRequestModel st e methodName m
        else (none, st)
      let acc :=
        match reqModel with
        | some model =>
          (acc.1 ++ [model],
           dictSet acc.2 (generateBaseModelName e methodName "Request") model.name)
        | none => acc
      let (respModel, st) :=
        match m.returns with
        | some r => if r.type_ ≠ "null" then generateResponseModel st e methodName m
                    else (none, st)
        | none => (none, st)
      let acc :=
        match respModel with
        | some model =>
          (acc.1 ++ [model],
           dictSet acc.2 (generateBaseModelName e methodName "Response") model.name)
        | none => acc
      (acc, st))
    (acc, st)

/-- `ModelGenerator.generate_models_file_with_names` (the model-building
part; template rendering is external): models and name map for one
module's flat endpoint list. -/
def generateModelsFileWithNames (st : MGenState) (endpoints : List Endpoint) :
    (List PydanticModel × List (String × String)) × MGenState :=
  endpoints.foldl
    (fun (accSt : (List PydanticModel × List (String × String)) × MGenState) e =>
      generateModelsForEndpoint accSt.2 accSt.1 e)
    (([], []), st)

/-! ### Endpoint generator (from
`src/generator/generators/endpoint_generator.py`) -/

/-- A property entry of an endpoint class.  Navigation properties (from
`_generate_property`) fill `cls`/`path`/`module`/`importPath`; root
aggregate properties (from `_create_root_class_for_group`) fill
`type_`/`description`.  The source uses plain dicts for both. -/
structure PropInfo where
  name : String
  cls : Option String := none
  path : Option String := none
  module : Option String := none
  importPath : Option String := none
  type_ : Option String := none
  description : Option String := none
  deriving DecidableEq, Repr

/-- A generated method entry (the dict built by `_generate_method` /
`_generate_method_dict`). -/
structure MethodInfo where
  name : String
  httpMethod : String
  paramModel : Option String := none
  responseModel : Option String := none
  description : String
  returnStatement : String
  deriving DecidableEq, Repr

/-- The `__call__` accessor entry (the dict built by
`_generate_call_method`). -/
structure CallInfo where
  paramName : String
  paramType : String
  itemClass : String
  importPath : String
  deriving DecidableEq, Repr

/-- `EndpointClass` dataclass. -/
structure EndpointClass where
  name : String
  baseClass : String := "EndpointBase"
  docstring : Option String := none
  properties : List PropInfo := []
  methods : List MethodInfo := []
  callMethod : Option CallInfo := none
  deriving DecidableEq, Repr

/-- `EndpointFile` dataclass (`imports` is filled by the external
rendering step and stays empty during generation). -/
structure EndpointFile where
  filePath : String
  classes : List EndpointClass
  imports : String := ""
  deriving DecidableEq, Repr

/-- The mutable per-instance state of an `EndpointGenerator`. -/
@[ext]
structure EGenState where
  generatedClasses : List String
  classCounter : String → Nat
  endpointFiles : List (String × EndpointFile)
  endpointClassNames : List (String × String)
  modelNameMap : List (String × String)

/-- `EndpointGenerator.__init__`: all tables empty, counters zeroed. -/
def initEGenState : EGenState :=
  { generatedClasses := []
    classCounter := fun _ => 0
    endpointFiles := []
    endpointClassNames := []
    modelNameMap := [] }

/-- Whether a node gets a class: `endpoint.methods or endpoint.children`. -/
def eligible (e : Endpoint) : Bool :=
  !e.methods.isEmpty || !e.children.isEmpty

/-- `EndpointGenerator._get_base_name`: capitalized non-parameterized
path segments joined, suffixed `"Endpoints"`; `"Api"` when there are
none. -/
def getBaseName (e : Endpoint) : String :=
  let parts := (pySplit '/' e.path).filter
    (fun p => p ≠ "" && !(strStartsWith p "\x7b"))
  let baseName :=
    if !parts.isEmpty then
      String.join (parts.map (fun part => pyTitle (charReplace '-' '_' part)))
    else "Api"
  baseName ++ "Endpoints"

/-- `EndpointGenerator._generate_class_name`: consume the per-base-name
counter (the `if base_name not in self.class_counter` initialization is
a no-op under the total-function counter state) and record the name in
`generated_classes`. -/
def generateClassName (st : EGenState) (e : Endpoint) : String × EGenState :=
  let baseName := getBaseName e
  let counter := st.classCounter baseName
  let st := { st with
    classCounter := fun k => if k = baseName then counter + 1 else st.classCounter k }
  let className := if counter = 0 then baseName else baseName ++ natStr counter
  (className, { st with generatedClasses := st.generatedClasses ++ [className] })

mutual

/-- Pre-order flattening of an endpoint subtree
(`SDKGenerator._collect_endpoints`, also the traversal order of
`collect_base_names` and `_collect_endpoint_recursive`). -/
def collectEndpoints : Endpoint → List Endpoint
  | .mk p t l m cs pp py cn =>
    Endpoint.mk p t l m cs pp py cn :: collectEndpointsList cs
  termination_by structural e => e

/-- Flattening over a list of subtrees (the per-child recursion). -/
def collectEndpointsList : List Endpoint → List Endpoint
  | [] => []
  | c :: cs => collectEndpoints c ++ collectEndpointsList cs
  termination_by structural l => l

end

mutual

/-- Pass 2 of the allocator,
`EndpointGenerator._collect_endpoint_recursive`: assign a class name to
every node with methods or children, pre-order. -/
def collectEndpointRecursive : Endpoint → EGenState → EGenState
  | e@(.mk _ _ _ _ cs _ _ _), st =>
    let st :=
      if eligible e then
        let (className, st') := generateClassName st e
        { st' with
          endpointClassNames := dictSet st'.endpointClassNames e.path className }
      else st
    collectChildrenRecursive cs st
  termination_by structural e => e

/-- The `for child in endpoint.children` loop of
`_collect_endpoint_recursive`. -/
def collectChildrenRecursive : List Endpoint → EGenState → EGenState
  | [], st => st
  | c :: cs, st => collectChildrenRecursive cs (collectEndpointRecursive c st)
  termination_by structural l => l

end

/-- Pass 1 + pass 2, `EndpointGenerator._collect_all_endpoints`: pass 1
collects and sorts the base names of all eligible nodes and initializes
each counter to zero — a dictionary mapping every collected base name to
`0` is extensionally the constant-zero counter, which is how it is
embedded — then pass 2 assigns the names. -/
def collectAllEndpoints (st : EGenState) (endpoints : List Endpoint) : EGenState :=
  let st := { st with classCounter := fun _ => 0 }
  endpoints.foldl (fun acc e => collectEndpointRecursive e acc) st

/-- Path-segment conversion inside `EndpointGenerator._get_file_path`:
`\x7bparam\x7d` becomes `param_item` (keyword-fixed), a plain segment
gets hyphens replaced and keywords suffixed. -/
def convertSegment (p : String) : String :=
  if strStartsWith p "\x7b" && strEndsWith p "\x7d" then
    keywordFix (pyStrip ['{', '}'] p) ++ "_item"
  else
    keywordFix (charReplace '-' '_' p)

/-- `EndpointGenerator._get_file_path`. -/
def getFilePath (e : Endpoint) : String :=
  let parts := pathParts e.path
  if parts.isEmpty then "common.py"
  else
    let convertedParts := parts.map convertSegment
    if !e.path_params.isEmpty then
      String.intercalate "/" (convertedParts ++ ["_item"]) ++ ".py"
    else
      String.intercalate "/" convertedParts ++ ".py"

/-- Length of the common prefix walk in
`_calculate_relative_import` (the `zip`/`break` loop). -/
def countCommonPrefix : List String → List String → Nat
  | a :: as, b :: bs => if a = b then 1 + countCommonPrefix as bs else 0
  | _, _ => 0

/-- `EndpointGenerator._calculate_relative_import`. -/
def calculateRelativeImport (fromPath toPath : String) : String :=
  let fromParts := pySplit '/' (pyReplace fromPath ".py" "")
  let toParts := pySplit '/' (pyReplace toPath ".py" "")
  let fromDirParts := if !fromParts.isEmpty then fromParts.dropLast else fromParts
  let commonLen := countCommonPrefix fromDirParts toParts
  let upLevels := fromDirParts.length - commonLen
  let downParts := toParts.drop commonLen
  String.intercalate "." (List.replicate (upLevels + 1) "." ++ downParts)

/-- `EndpointGenerator._get_method_name`, tail sanitization shared by
the POST/PUT/fallback branches (`replace("-", "_")`, keyword suffix,
`"execute"` for an empty result). -/
def sanitizeMethodName (methodName : String) : String :=
  let methodName :=
    if methodName ≠ "" then keywordFix (charReplace '-' '_' methodName)
    else methodName
  if methodName ≠ "" then methodName else "execute"

/-- `EndpointGenerator._get_method_name`: the fixed verb → Python-name
mapping. -/
def getMethodName (m : Method) : String :=
  let httpMethod := m.method
  if httpMethod = "GET" then
    match m.returns with
    | some r => if r.type_ = "array" then "list" else "get"
    | none => "get"
  else if httpMethod = "POST" then
    sanitizeMethodName (if m.name = "" then "create" else m.name)
  else if httpMethod = "PUT" then
    sanitizeMethodName (if m.name = "" then "update" else m.name)
  else if httpMethod = "DELETE" then
    "delete"
  else
    sanitizeMethodName (if m.name = "" then pyLower httpMethod else m.name)

/-- The duplicated `_generate_base_model_name` on `EndpointGenerator`
(textually identical to the model generator's). -/
def egGenerateBaseModelName (e : Endpoint) (methodName suffix : String) : String :=
  generateBaseModelName e methodName suffix

/-- `EndpointGenerator._generate_method` (and its verbatim duplicate
`_generate_method_dict`): resolve the Python method name against the
forbidden property names, wire the request/response model names through
`model_name_map`, and pick the return statement. -/
def generateMethod (modelNameMap : List (String × String)) (e : Endpoint)
    (methodName : String) (m : Method) (forbiddenNames : List String) :
    Option MethodInfo :=
  let pythonMethodName := getMethodName m
  let pythonMethodName :=
    if pythonMethodName ∈ forbiddenNames then
      if m.method = "GET" then "get" else pythonMethodName ++ "_"
    else pythonMethodName
  let paramModel :=
    if !m.parameters.isEmpty then
      dictGet? modelNameMap (egGenerateBaseModelName e methodName "Request")
    else none
  let responseModel :=
    match m.returns with
    | some r =>
      if r.type_ ≠ "null" then
        dictGet? modelNameMap (egGenerateBaseModelName e methodName "Response")
      else none
    | none => none
  let returnStatement :=
    if methodName = "GET" then
      if paramModel.isSome then
        "return await self._get(params=params.model_dump(exclude_none=True) if params else None)"
      else "return await self._get()"
    else if methodName = "POST" then
      if paramModel.isSome then
        "return await self._post(data=params.model_dump(exclude_none=True) if params else None)"
      else "return await self._post()"
    else if methodName = "PUT" then
      if paramModel.isSome then
        "return await self._put(data=params.model_dump(exclude_none=True) if params else None)"
      else "return await self._put()"
    else if methodName = "DELETE" then
      "return await self._delete()"
    else "# Unknown HTTP method"
  some
    { name := pythonMethodName
      httpMethod := methodName
      paramModel := paramModel
      responseModel := responseModel
      description :=
        match m.description with
        | some d => if d ≠ "" then d else pyUpper methodName ++ " operation"
        | none => pyUpper methodName ++ " operation"
      returnStatement := returnStatement }

/-- `EndpointGenerator._generate_property`. -/
def generateProperty (st : EGenState) (currentEndpoint childEndpoint : Endpoint) :
    PropInfo × EGenState :=
  let propName := keywordFix (charReplace '-' '_' childEndpoint.text)
  let (className, st) :=
    match dictGet? st.endpointClassNames childEndpoint.path with
    | some n => (n, st)
    | none =>
      let (n, st') := generateClassName st childEndpoint
      (n, { st' with
        endpointClassNames := dictSet st'.endpointClassNames childEndpoint.path n })
  let currentFilePath := getFilePath currentEndpoint
  let childFilePath := getFilePath childEndpoint
  let importPath := calculateRelativeImport currentFilePath childFilePath
  let importPath :=
    if strEndsWith currentFilePath "/_item.py" then "." ++ propName ++ "._item"
    else importPath
  let module :=
    if childFilePath.data.contains '/' then
      pyReplace ((pySplit '/' childFilePath).getLastD "") ".py" ""
    else pyReplace childFilePath ".py" ""
  ({ name := propName
     cls := some className
     path := some childEndpoint.text
     module := some module
     importPath := some importPath }, st)

/-- `EndpointGenerator._generate_call_method`. -/
def generateCallMethod (st : EGenState) (childEndpoint : Endpoint) :
    CallInfo × EGenState :=
  let paramName? : Option String :=
    if !childEndpoint.path_params.isEmpty then
      let textParam := pyStrip ['{', '}'] childEndpoint.text
      if textParam ∈ childEndpoint.path_params then some textParam
      else childEndpoint.path_params.head?
    else none
  let paramName := match paramName? with
    | some p => if p = "" then "id" else p
    | none => "id"
  let paramName := keywordFix paramName
  let (itemClassName, st) :=
    match dictGet? st.endpointClassNames childEndpoint.path with
    | some n => (n, st)
    | none =>
      let (n, st') := generateClassName st childEndpoint
      (n, { st' with
        endpointClassNames := dictSet st'.endpointClassNames childEndpoint.path n })
  let importPath := "." ++ paramName ++ "_item._item"
  let paramType :=
    if containsSubstr (pyLower paramName) "id"
        || containsSubstr (pyLower paramName) "vmid"
        || containsSubstr (pyLower paramName) "port" then "int"
    else "str"
  ({ paramName := paramName
     paramType := paramType
     itemClass := itemClassName
     importPath := importPath }, st)

/-- `EndpointGenerator._generate_endpoint_class`. -/
def generateEndpointClass (st : EGenState) (e : Endpoint) :
    Option EndpointClass × EGenState :=
  if e.methods.isEmpty && e.children.isEmpty then (none, st)
  else
    let (className, st) :=
      match dictGet? st.endpointClassNames e.path with
      | some n => (n, st)
      | none =>
        let (n, st') := generateClassName st e
        (n, { st' with
          endpointClassNames := dictSet st'.endpointClassNames e.path n })
    let (properties, st) :=
      e.children.foldl
        (fun (acc : List PropInfo × EGenState) child =>
          if !child.text.data.contains '{' && !child.text.data.contains '}' then
            let (prop, st') := generateProperty acc.2 e child
            (acc.1 ++ [prop], st')
          else acc)
        ([], st)
    let forbiddenNames := properties.map PropInfo.name
    let methods :=
      e.methods.foldl
        (fun (acc : List MethodInfo) mm =>
          match generateMethod st.modelNameMap e mm.1 mm.2 forbiddenNames with
          | some mi => acc ++ [mi]
          | none => acc)
        []
    let (callMethod, st) :=
      if !e.text.data.contains '{' && !e.text.data.contains '}' then
        let parametrizedChildren := e.children.filter
          (fun child => child.text.data.contains '{' || child.text.data.contains '}')
        match parametrizedChildren with
        | child :: _ =>
          let (ci, st') := generateCallMethod st child
          (some ci, st')
        | [] => (none, st)
      else (none, st)
    (some
      { name := className
        docstring := some ("Endpoint class for " ++ e.path)
        properties := properties
        methods := methods
        callMethod := callMethod }, st)

/-- Append a class to the (created-on-demand) file entry for a path:
the `if file_path not in self.endpoint_files` + `classes.append`
sequence of `_process_endpoint_recursive`. -/
def addClassToFile (files : List (String × EndpointFile)) (filePath : String)
    (cls? : Option EndpointClass) : List (String × EndpointFile) :=
  let files :=
    if (dictGet? files filePath).isSome then files
    else files ++ [(filePath, { filePath := filePath, classes := [] })]
  match cls? with
  | some cls =>
    files.map (fun kv =>
      if kv.1 = filePath then
        (kv.1, { kv.2 with classes := kv.2.classes ++ [cls] })
      else kv)
  | none => files

mutual

/-- `EndpointGenerator._process_endpoint_recursive`. -/
def processEndpointRecursive : Endpoint → EGenState → EGenState
  | e@(.mk _ _ _ _ cs _ _ _), st =>
    let (endpointClass?, st) := generateEndpointClass st e
    let parts := pathParts e.path
    let isRootEndpoint := parts.length = 1
    let st :=
      if (endpointClass?.isSome || !e.children.isEmpty) && !isRootEndpoint then
        let filePath := getFilePath e
        { st with endpointFiles := addClassToFile st.endpointFiles filePath endpointClass? }
      else st
    processChildrenRecursive cs st
  termination_by structural e => e

/-- The `for child in endpoint.children` loop of
`_process_endpoint_recursive`. -/
def processChildrenRecursive : List Endpoint → EGenState → EGenState
  | [], st => st
  | c :: cs, st => processChildrenRecursive cs (processEndpointRecursive c st)
  termination_by structural l => l

end

/-- The `root_groups` construction of
`EndpointGenerator._create_root_endpoint_classes`: group the top-level
endpoints by first path segment (insertion-ordered `defaultdict`). -/
def buildRootGroups (endpoints : List Endpoint) : List (String × List Endpoint) :=
  endpoints.foldl
    (fun groups e =>
      match pySplit '/' (pyStrip ['/'] e.path) with
      | p :: _ =>
        if p ≠ "" then dictSet groups p ((dictGet? groups p).getD [] ++ [e])
        else groups
      | [] => groups)
    []

/-- `EndpointGenerator._create_root_class_for_group`. -/
def createRootClassForGroup (st : EGenState) (rootName : String)
    (endpoints : List Endpoint) : EGenState :=
  let rootClassName := pyCapitalize (charReplace '-' '_' rootName) ++ "Endpoints"
  let rootEndpoint? := endpoints.find? (fun (ep : Endpoint) => ep.path = "/" ++ rootName)
  let (callMethod, st) : Option CallInfo × EGenState :=
    match rootEndpoint? with
    | some rootEndpoint =>
      if rootEndpoint.children.any (fun (child : Endpoint) => !child.path_params.isEmpty) then
        match rootEndpoint.children.find? (fun (child : Endpoint) => !child.path_params.isEmpty) with
        | some parametrizedChild =>
          let (ci, st') := generateCallMethod st parametrizedChild
          (some ci, st')
        | none => (none, st)
      else (none, st)
    | none => (none, st)
  let properties :=
    endpoints.foldl
      (fun (acc : List PropInfo) (ep : Endpoint) =>
        if ep.path = "/" ++ rootName then acc
        else
          match dictGet? st.endpointClassNames ep.path with
          | some childClassName =>
            let parts := pySplit '/' (pyStrip ['/'] ep.path)
            if parts.length > 1 then
              let propName := parts.getD 1 ""
              let propName :=
                if propName.data.contains '{' then "_item"
                else charReplace '-' '_' propName
              acc ++ [({ name := propName
                         type_ := some childClassName
                         description := some ("Access " ++ ep.path ++ " endpoints") : PropInfo })]
            else acc
          | none => acc)
      []
  let forbiddenNames := properties.map PropInfo.name
  let methods :=
    endpoints.foldl
      (fun (acc : List MethodInfo) (ep : Endpoint) =>
        if ep.path = "/" ++ rootName && !ep.methods.isEmpty then
          ep.methods.foldl
            (fun acc2 mm =>
              match generateMethod st.modelNameMap ep mm.1 mm.2 forbiddenNames with
              | some md => acc2 ++ [md]
              | none => acc2)
            acc
        else acc)
      []
  let rootClass : EndpointClass :=
    { name := rootClassName
      docstring := some ("Root endpoint class for " ++ rootName ++ " API endpoints.")
      properties := properties
      methods := methods
      callMethod := callMethod }
  let filePath := rootName ++ "/__init__.py"
  let files :=
    if (dictGet? st.endpointFiles filePath).isSome then st.endpointFiles
    else st.endpointFiles ++
      [(filePath, ({ filePath := filePath, classes := [] } : EndpointFile))]
  let files :=
    files.map (fun (kv : String × EndpointFile) =>
      if kv.1 = filePath then (kv.1, { kv.2 with classes := rootClass :: kv.2.classes })
      else kv)
  { st with endpointFiles := files }

/-- `EndpointGenerator._create_root_endpoint_classes`. -/
def createRootEndpointClasses (st : EGenState) (endpoints : List Endpoint) :
    EGenState :=
  (buildRootGroups endpoints).foldl
    (fun acc grp => createRootClassForGroup acc grp.1 grp.2)
    st

/-- `EndpointGenerator.generate_endpoints`: store the name map, run the
two allocator passes, then generate files and root classes. -/
def generateEndpoints (endpoints : List Endpoint)
    (modelNameMap : List (String × String)) : List EndpointFile × EGenState :=
  let st := initEGenState
  let st := { st with modelNameMap := modelNameMap }
  let st := collectAllEndpoints st endpoints
  let st := { st with endpointFiles := [] }
  let st := endpoints.foldl (fun acc e => processEndpointRecursive e acc) st
  let st := createRootEndpointClasses st endpoints
  (st.endpointFiles.map Prod.snd, st)

/-! ### The driving pipeline (from `src/tools/generate.py`) -/

/-- The `modules` grouping of `SDKGenerator._generate_models`: top-level
endpoints grouped by their `text`, each group holding the recursive
flattening of its endpoints. -/
def buildModules (endpoints : List Endpoint) : List (String × List Endpoint) :=
  endpoints.foldl
    (fun modules e =>
      let cur := (dictGet? modules e.text).getD []
      dictSet modules e.text (cur ++ collectEndpoints e))
    []

/-- The outputs of one full pipeline run that the determinism property
quantifies over: generated models per module, the base-name → model-name
map, the endpoint files (with their classes) and the allocator's
path → class-name table. -/
structure PipelineResult where
  modelsByModule : List (String × List PydanticModel)
  modelNameMap : List (String × String)
  endpointFiles : List EndpointFile
  endpointClassNames : List (String × String)
  deriving Repr

/-- `SDKGenerator._generate_models` followed by
`SDKGenerator._generate_endpoints` (steps 4 and 5 of `generate`): one
`ModelGenerator` instance is threaded across all modules, its name map
is merged module by module, and the merged map feeds the endpoint
generator.  Both generator states are freshly initialized inside this
function, as the per-run scoping requires. -/
def runPipeline (endpoints : List Endpoint) : PipelineResult :=
  let modules := buildModules endpoints
  let step :=
    modules.foldl
      (fun (acc : (List (String × List PydanticModel) × List (String × String)) × MGenState)
           (mod : String × List Endpoint) =>
        let ((byModule, nameMap), mst) := acc
        let ((models, moduleNames), mst) := generateModelsFileWithNames mst mod.2
        ((byModule ++ [(mod.1, models)],
          moduleNames.foldl (fun nm kv => dictSet nm kv.1 kv.2) nameMap), mst))
      (([], []), initMGenState)
  let ((modelsByModule, modelNameMap), _mst) := step
  let (files, est) := generateEndpoints endpoints modelNameMap
  { modelsByModule := modelsByModule
    modelNameMap := modelNameMap
    endpointFiles := files
    endpointClassNames := est.endpointClassNames }

/-! ### The allocation discipline, abstractly

Both per-run name allocators (`EndpointGenerator._generate_class_name`
and `ModelGenerator._ensure_unique_name`) follow the same discipline:
read the per-base counter, emit `mkName base counter`, increment.  The
following closed forms and lemmas characterize any sequence of such
allocation events. -/

/-- Increment one base's counter. -/
def bumpCounter (ctr : String → Nat) (b : String) : String → Nat :=
  fun k => if k = b then ctr b + 1 else ctr k

/-- The names emitted by a sequence of allocation events starting from
counter state `ctr`. -/
def allocNames : (String → Nat) → List String → List String
  | _, [] => []
  | ctr, b :: bs => mkName b (ctr b) :: allocNames (bumpCounter ctr b) bs

/-- Counter state after a sequence of allocation events. -/
def ctrAfter (ctr : String → Nat) (bs : List String) : String → Nat :=
  fun b => ctr b + bs.count b

/-- The path → name assignment events of the class-name allocator:
each event pairs the node's path with the freshly allocated name. -/
def allocAssign (ctr : String → Nat) (evs : List (String × String)) :
    List (String × String) :=
  (evs.map Prod.fst).zip (allocNames ctr (evs.map Prod.snd))

theorem allocNames_length (ctr : String → Nat) (bs : List String) :
    (allocNames ctr bs).length = bs.length := by
  induction bs generalizing ctr with
  | nil => rfl
  | cons b bs ih => simp [allocNames, ih]

theorem ctrAfter_nil (ctr : String → Nat) : ctrAfter ctr [] = ctr := by
  funext b
  simp [ctrAfter]

theorem ctrAfter_cons (ctr : String → Nat) (b : String) (bs : List String) :
    ctrAfter ctr (b :: bs) = ctrAfter (bumpCounter ctr b) bs := by
  funext k
  by_cases h : k = b <;>
    simp [ctrAfter, bumpCounter, h, List.count_cons] <;> omega

theorem allocNames_append (ctr : String → Nat) (xs ys : List String) :
    allocNames ctr (xs ++ ys) =
      allocNames ctr xs ++ allocNames (ctrAfter ctr xs) ys := by
  induction xs generalizing ctr with
  | nil => simp [allocNames, ctrAfter_nil]
  | cons b bs ih =>
    simp only [List.cons_append, allocNames, List.append_eq, ih, ctrAfter_cons]

theorem bumpCounter_le (ctr : String → Nat) (b k : String) :
    ctr k ≤ bumpCounter ctr b k := by
  by_cases h : k = b <;> simp [bumpCounter, h]

/-- Every emitted name is `mkName` of one of the bases at a counter at
least the starting value for that base. -/
theorem mem_allocNames {ctr : String → Nat} {bs : List String} {x : String}
    (hx : x ∈ allocNames ctr bs) :
    ∃ b c, b ∈ bs ∧ x = mkName b c ∧ ctr b ≤ c := by
  induction bs generalizing ctr with
  | nil => simp [allocNames] at hx
  | cons b bs ih =>
    simp only [allocNames, List.mem_cons] at hx
    rcases hx with h | h
    · exact ⟨b, ctr b, by simp, h, le_refl _⟩
    · obtain ⟨b', c', hb', hx', hc'⟩ := ih h
      refine ⟨b', c', by simp [hb'], hx', le_trans (bumpCounter_le ctr b b') hc'⟩

/-- Distinctness of all names emitted in one run, for bases that end in
a non-digit: the uniqueness invariant of both allocators. -/
theorem allocNames_nodup {ctr : String → Nat} {bs : List String}
    (hval : ∀ b ∈ bs, lastNonDigit b = true) :
    (allocNames ctr bs).Nodup := by
  induction bs generalizing ctr with
  | nil => simp [allocNames]
  | cons b bs ih =>
    simp only [allocNames, List.nodup_cons]
    refine ⟨?_, ih (fun b' hb' => hval b' (by simp [hb']))⟩
    intro hmem
    obtain ⟨b', c', hb', heq, hc'⟩ := mem_allocNames hmem
    have hvb : lastNonDigit b = true := hval b (by simp)
    have hvb' : lastNonDigit b' = true := hval b' (by simp [hb'])
    obtain ⟨hbeq, hceq⟩ := mkName_injOn hvb hvb' heq
    subst hbeq
    have : bumpCounter ctr b b = ctr b + 1 := by simp [bumpCounter]
    omega

/-- Positional closed form: the `i`-th allocation for base `b` emits the
bare base name when no earlier event consumed `b`, and `b` followed by
the number of earlier consumptions otherwise (counters advance in event
order). -/
theorem allocNames_get? (ctr : String → Nat) (bs : List String) (i : Nat) :
    (allocNames ctr bs).get? i =
      (bs.get? i).map (fun b => mkName b (ctr b + (bs.take i).count b)) := by
  induction bs generalizing ctr i with
  | nil => simp [allocNames]
  | cons b bs ih =>
    cases i with
    | zero => simp [allocNames]
    | succ j =>
      simp only [allocNames, List.get?_cons_succ, ih, List.take_succ_cons]
      cases hj : bs.get? j with
      | none => rfl
      | some b' =>
        simp only [Option.map_some']
        congr 2
        by_cases hbb : b' = b <;>
          simp [bumpCounter, hbb, List.count_cons] <;> omega

theorem nodup_get?_inj {α : Type} {l : List α} {i j : Nat} {n : α}
    (hn : l.Nodup) (hi : l.get? i = some n) (hj : l.get? j = some n) : i = j := by
  have hi' : l[i]? = some n := by rw [← List.get?_eq_getElem?]; exact hi
  have hj' : l[j]? = some n := by rw [← List.get?_eq_getElem?]; exact hj
  have hilen : i < l.length := by
    by_contra hlt
    push_neg at hlt
    rw [List.getElem?_eq_none hlt] at hi'
    exact Option.noConfusion hi'
  exact List.getElem?_inj hilen hn (hi'.trans hj'.symm)

theorem lastNonDigit_append {s t : String} (h : lastNonDigit t = true) :
    lastNonDigit (s ++ t) = true := by
  unfold lastNonDigit at h ⊢
  rw [String.data_append]
  cases hg : t.data.getLast? with
  | none =>
    rw [hg] at h
    simp at h
  | some c =>
    have htne : t.data ≠ [] := by
      intro hnil
      rw [hnil] at hg
      simp at hg
    rw [List.getLast?_append_of_ne_nil _ htne, hg]
    rw [hg] at h
    exact h

theorem lastNonDigit_endpoints (s : String) :
    lastNonDigit (s ++ "Endpoints") = true :=
  lastNonDigit_append (by decide)

/-- Every base name of the class-name allocator ends in `"Endpoints"`,
hence in a non-digit: the structural fact behind uniqueness. -/
theorem getBaseName_lastNonDigit (e : Endpoint) :
    lastNonDigit (getBaseName e) = true := by
  unfold getBaseName
  apply lastNonDigit_endpoints

/-- Every base model name ends in the `"Request"`/`"Response"` suffix,
hence in a non-digit, for the model-name counter. -/
theorem generateBaseModelName_lastNonDigit (e : Endpoint) (mn sfx : String)
    (h : sfx = "Request" ∨ sfx = "Response") :
    lastNonDigit (generateBaseModelName e mn sfx) = true := by
  unfold generateBaseModelName
  rcases h with h | h <;> subst h
  · exact lastNonDigit_append (by decide)
  · exact lastNonDigit_append (by decide)

/-- Fold a list of assignment events into the path → name dictionary. -/
def dictSetAll (m : List (String × String)) (evs : List (String × String)) :
    List (String × String) :=
  evs.foldl (fun acc pn => dictSet acc pn.1 pn.2) m

theorem dictSetAll_nil (m : List (String × String)) : dictSetAll m [] = m := rfl

theorem dictSetAll_cons (m : List (String × String)) (pn : String × String)
    (evs : List (String × String)) :
    dictSetAll m (pn :: evs) = dictSetAll (dictSet m pn.1 pn.2) evs := rfl

theorem dictSetAll_append (m : List (String × String))
    (xs ys : List (String × String)) :
    dictSetAll m (xs ++ ys) = dictSetAll (dictSetAll m xs) ys := by
  simp [dictSetAll, List.foldl_append]

theorem mem_dictSet {α : Type} {m : List (String × α)} {k : String} {v : α}
    {x : String × α} (hx : x ∈ dictSet m k v) : x = (k, v) ∨ x ∈ m := by
  induction m with
  | nil => simpa [dictSet] using hx
  | cons kv rest ih =>
    unfold dictSet at hx
    by_cases h : kv.1 = k
    · rw [if_pos h] at hx
      rcases List.mem_cons.mp hx with h1 | h1
      · exact Or.inl h1
      · exact Or.inr (by simp [h1])
    · rw [if_neg h] at hx
      rcases List.mem_cons.mp hx with h1 | h1
      · exact Or.inr (by simp [h1])
      · rcases ih h1 with h2 | h2
        · exact Or.inl h2
        · exact Or.inr (by simp [h2])

theorem mem_dictSetAll {m evs : List (String × String)} {x : String × String}
    (hx : x ∈ dictSetAll m evs) : x ∈ m ∨ x ∈ evs := by
  induction evs generalizing m with
  | nil => exact Or.inl hx
  | cons pn rest ih =>
    rw [dictSetAll_cons] at hx
    rcases ih hx with h | h
    · rcases mem_dictSet h with h1 | h1
      · right
        simp [h1]
      · exact Or.inl h1
    · right
      simp [h]

theorem mem_zip_get? {α β : Type} {x : α × β} :
    ∀ {as : List α} {bs : List β}, x ∈ as.zip bs →
      ∃ i, as.get? i = some x.1 ∧ bs.get? i = some x.2 := by
  intro as
  induction as with
  | nil => intro bs h; simp [List.zip] at h
  | cons a as ih =>
    intro bs h
    cases bs with
    | nil => simp [List.zip] at h
    | cons b bs =>
      rcases List.mem_cons.mp h with h1 | h1
      · exact ⟨0, by simp [Prod.ext_iff.mp h1]⟩
      · obtain ⟨i, h2, h3⟩ := ih h1
        exact ⟨i + 1, by simpa using h2, by simpa using h3⟩

/-- Two assignment events with the same name have the same path, when
the emitted names are pairwise distinct. -/
theorem allocAssign_same_name {ctr : String → Nat}
    {evs : List (String × String)} {p₁ p₂ n : String}
    (hnd : (allocNames ctr (evs.map Prod.snd)).Nodup)
    (h₁ : (p₁, n) ∈ allocAssign ctr evs)
    (h₂ : (p₂, n) ∈ allocAssign ctr evs) : p₁ = p₂ := by
  obtain ⟨i, hi1, hi2⟩ := mem_zip_get? h₁
  obtain ⟨j, hj1, hj2⟩ := mem_zip_get? h₂
  have hij : i = j := nodup_get?_inj hnd hi2 hj2
  subst hij
  rw [hi1] at hj1
  injection hj1

/-- The (path, base-name) pairs of the eligible nodes of a subtree in
pre-order: exactly the allocation events of
`_collect_endpoint_recursive`. -/
def pathBases (e : Endpoint) : List (String × String) :=
  ((collectEndpoints e).filter eligible).map (fun n => (n.path, getBaseName n))

/-- The allocation events of a forest, pre-order. -/
def pathBasesList (es : List Endpoint) : List (String × String) :=
  ((collectEndpointsList es).filter eligible).map (fun n => (n.path, getBaseName n))

theorem pathBasesList_nil : pathBasesList [] = [] := rfl

theorem pathBasesList_cons (c : Endpoint) (cs : List Endpoint) :
    pathBasesList (c :: cs) = pathBases c ++ pathBasesList cs := by
  simp [pathBasesList, pathBases, collectEndpointsList]

theorem pathBases_mk (p t : String) (l : Bool) (m : List (String × Method))
    (cs : List Endpoint) (pp : List String) (py cn : String) :
    pathBases (.mk p t l m cs pp py cn) =
      (if eligible (.mk p t l m cs pp py cn) then
        [(p, getBaseName (.mk p t l m cs pp py cn))] else [])
      ++ pathBasesList cs := by
  by_cases h : eligible (.mk p t l m cs pp py cn) <;>
    simp [pathBases, pathBasesList, collectEndpoints, List.filter_cons, h,
      Endpoint.path]

theorem allocAssign_nil (ctr : String → Nat) : allocAssign ctr [] = [] := rfl

theorem allocAssign_cons (ctr : String → Nat) (pb : String × String)
    (evs : List (String × String)) :
    allocAssign ctr (pb :: evs) =
      (pb.1, mkName pb.2 (ctr pb.2)) :: allocAssign (bumpCounter ctr pb.2) evs := by
  simp [allocAssign, allocNames]

theorem allocAssign_append (ctr : String → Nat)
    (xs ys : List (String × String)) :
    allocAssign ctr (xs ++ ys) =
      allocAssign ctr xs ++ allocAssign (ctrAfter ctr (xs.map Prod.snd)) ys := by
  unfold allocAssign
  rw [List.map_append, List.map_append, allocNames_append, List.zip_append]
  rw [List.length_map, allocNames_length, List.length_map]

/-- `_generate_class_name` in closed form. -/
theorem generateClassName_eq (st : EGenState) (e : Endpoint) :
    generateClassName st e =
      (mkName (getBaseName e) (st.classCounter (getBaseName e)),
       { st with
          classCounter := bumpCounter st.classCounter (getBaseName e)
          generatedClasses :=
            st.generatedClasses ++ [mkName (getBaseName e) (st.classCounter (getBaseName e))] }) := by
  rfl

mutual

/-- The state transformation of `_collect_endpoint_recursive` in closed
form: the generated-class log extends by the allocator's names for the
subtree's eligible nodes, the counters advance by the base-name counts,
and the path → class-name table receives the assignment events, all in
pre-order. -/
theorem collectEndpointRecursive_spec (e : Endpoint) (st : EGenState) :
    collectEndpointRecursive e st =
      { st with
        generatedClasses :=
          st.generatedClasses ++ allocNames st.classCounter ((pathBases e).map Prod.snd)
        classCounter := ctrAfter st.classCounter ((pathBases e).map Prod.snd)
        endpointClassNames :=
          dictSetAll st.endpointClassNames (allocAssign st.classCounter (pathBases e)) } := by
  cases e with
  | mk p t l m cs pp py cn =>
    rw [collectEndpointRecursive]
    by_cases helig : eligible (.mk p t l m cs pp py cn)
    · rw [if_pos helig]
      rw [generateClassName_eq]
      rw [collectChildrenRecursive_spec cs]
      rw [pathBases_mk, if_pos helig]
      simp only [List.map_append, List.map_cons, List.map_nil, List.cons_append,
        List.nil_append, allocNames, allocAssign_cons, ctrAfter_cons,
        dictSetAll_cons]
      simp [Endpoint.path]
    · rw [if_neg helig]
      rw [collectChildrenRecursive_spec cs]
      rw [pathBases_mk, if_neg helig]
      simp only [List.nil_append]
  termination_by sizeOf e
  decreasing_by
    all_goals simp only [Endpoint.mk.sizeOf_spec]
    all_goals omega

/-- List version of `collectEndpointRecursive_spec`. -/
theorem collectChildrenRecursive_spec (l : List Endpoint) (st : EGenState) :
    collectChildrenRecursive l st =
      { st with
        generatedClasses :=
          st.generatedClasses ++ allocNames st.classCounter ((pathBasesList l).map Prod.snd)
        classCounter := ctrAfter st.classCounter ((pathBasesList l).map Prod.snd)
        endpointClassNames :=
          dictSetAll st.endpointClassNames (allocAssign st.classCounter (pathBasesList l)) } := by
  cases l with
  | nil =>
    rw [collectChildrenRecursive]
    simp [pathBasesList_nil, ctrAfter_nil, dictSetAll_nil, allocAssign_nil, allocNames]
  | cons c cs =>
    rw [collectChildrenRecursive]
    rw [collectEndpointRecursive_spec c st]
    rw [collectChildrenRecursive_spec cs]
    rw [pathBasesList_cons]
    simp only [List.map_append, allocNames_append, dictSetAll_append,
      allocAssign_append]
    congr 1
    · simp [List.append_assoc]
    · funext k
      simp [ctrAfter, List.count_append]
      omega
  termination_by sizeOf l
  decreasing_by
    all_goals simp only [List.cons.sizeOf_spec]
    all_goals omega

end

theorem foldl_collect (es : List Endpoint) (st : EGenState) :
    es.foldl (fun acc e => collectEndpointRecursive e acc) st =
      collectChildrenRecursive es st := by
  induction es generalizing st with
  | nil => rfl
  | cons c cs ih => simp [collectChildrenRecursive, List.foldl_cons, ih]

theorem collectAllEndpoints_eq (es : List Endpoint) :
    collectAllEndpoints initEGenState es =
      collectChildrenRecursive es initEGenState := by
  unfold collectAllEndpoints
  rw [foldl_collect]
  rfl

/-- First sibling of the collision scenario: path `/nodes/{node}`,
base-naming to `NodesEndpoints`. -/
def c1Sibling1 : Endpoint :=
  .mk "/nodes/{node}" "{node}" false [("GET", { method := "GET", name := "" })]
    [] ["node"] "" ""

/-- Second sibling of the collision scenario: path `/nodes/{vmid}`,
also base-naming to `NodesEndpoints`. -/
def c1Sibling2 : Endpoint :=
  .mk "/nodes/{vmid}" "{vmid}" false [("GET", { method := "GET", name := "" })]
    [] ["vmid"] "" ""

/-- C1: the endpoint-class name allocator assigns pairwise-distinct
class names to distinct paths.  Over any forest: (1) the allocated names
are exactly the `mkName base counter` sequence of the pre-order eligible
nodes; (2) the path → name table is the fold of those assignment
events; (3) all allocated names are pairwise distinct; (4) positionally,
the `i`-th allocation emits the bare base name when the base was not
consumed before position `i` and the base followed by the occurrence
counter otherwise; (5) no class name is ever assigned to two different
paths; and (6) the two siblings base-naming to `NodesEndpoints` receive
exactly `NodesEndpoints` and `NodesEndpoints1` in traversal order. -/
theorem classname_allocator_unique (es : List Endpoint) :
    ((collectAllEndpoints initEGenState es).generatedClasses
        = allocNames (fun _ => 0) ((pathBasesList es).map Prod.snd))
    ∧ ((collectAllEndpoints initEGenState es).endpointClassNames
        = dictSetAll [] (allocAssign (fun _ => 0) (pathBasesList es)))
    ∧ (collectAllEndpoints initEGenState es).generatedClasses.Nodup
    ∧ (∀ i, (collectAllEndpoints initEGenState es).generatedClasses.get? i
          = (((pathBasesList es).map Prod.snd).get? i).map
              (fun b => mkName b ((((pathBasesList es).map Prod.snd).take i).count b)))
    ∧ (∀ p₁ p₂ n,
        (p₁, n) ∈ (collectAllEndpoints initEGenState es).endpointClassNames →
        (p₂, n) ∈ (collectAllEndpoints initEGenState es).endpointClassNames →
        p₁ = p₂)
    ∧ ((collectAllEndpoints initEGenState [c1Sibling1, c1Sibling2]).endpointClassNames
        = [("/nodes/{node}", "NodesEndpoints"), ("/nodes/{vmid}", "NodesEndpoints1")]) := by
  have hval : ∀ b ∈ (pathBasesList es).map Prod.snd, lastNonDigit b = true := by
    intro b hb
    obtain ⟨pb, hpb, hpb2⟩ := List.mem_map.mp hb
    obtain ⟨n, _, hn2⟩ := List.mem_map.mp hpb
    rw [← hpb2, ← hn2]
    exact getBaseName_lastNonDigit n
  have hstate := collectChildrenRecursive_spec es initEGenState
  rw [collectAllEndpoints_eq, hstate]
  have hgc : initEGenState.generatedClasses = [] := rfl
  have hnames : initEGenState.endpointClassNames = [] := rfl
  refine ⟨by simp [initEGenState], by simp [initEGenState], ?_, ?_, ?_, by decide⟩
  · simp only [initEGenState, List.nil_append]
    exact allocNames_nodup hval
  · intro i
    simp only [initEGenState, List.nil_append]
    rw [allocNames_get?]
    simp
  · intro p₁ p₂ n h₁ h₂
    simp only [initEGenState] at h₁ h₂
    have hnd : (allocNames (fun _ => 0) ((pathBasesList es).map Prod.snd)).Nodup :=
      allocNames_nodup hval
    rcases mem_dictSetAll h₁ with h | h
    · simp at h
    · rcases mem_dictSetAll h₂ with h' | h'
      · simp at h'
      · exact allocAssign_same_name hnd h h'

/-- Witness for C1, discharging the membership hypotheses of
conjunct (5) at the concrete sibling tree. -/
theorem classname_allocator_unique_witness :
    ("/nodes/{node}" : String) = "/nodes/{node}" :=
  (classname_allocator_unique [c1Sibling1, c1Sibling2]).2.2.2.2.1
    "/nodes/{node}" "/nodes/{node}" "NodesEndpoints" (by decide) (by decide)

/-- `_ensure_unique_name` in closed form: it reads and bumps only the
model counter and emits `mkName base counter`. -/
theorem ensureUniqueName_eq (st : MGenState) (b : String) :
    ensureUniqueName st b =
      (mkName b (st.modelCounter b),
       { st with modelCounter := bumpCounter st.modelCounter b }) := by
  unfold ensureUniqueName mkName bumpCounter
  by_cases h : st.modelCounter b = 0
  · simp [h]
  · simp [h, Nat.pos_of_ne_zero h]

/-- A sequence of `_ensure_unique_name` calls. -/
def ensureUniqueRun (st : MGenState) : List String → List String × MGenState
  | [] => ([], st)
  | b :: bs =>
    let step := ensureUniqueName st b
    let rest := ensureUniqueRun step.2 bs
    (step.1 :: rest.1, rest.2)

theorem ensureUniqueRun_names (st : MGenState) (bs : List String) :
    (ensureUniqueRun st bs).1 = allocNames st.modelCounter bs := by
  induction bs generalizing st with
  | nil => rfl
  | cons b bs ih =>
    simp only [ensureUniqueRun, allocNames, ensureUniqueName_eq]
    rw [ih]

/-- C10: the model-name counter of `ModelGenerator._ensure_unique_name`.
(1) one call emits `mkName base counter` and bumps only that base's
counter in the model generator's own state — in particular the first
use of a base returns the bare base name, since `mkName b 0 = b`;
(2) a run of calls from a fresh generator emits, at position `i`, the
base followed by the count of its earlier uses; (3) when every base ends
in a non-digit the emitted names are pairwise distinct; (4) every
generated base model name ends in `"Request"`/`"Response"` and hence in
a non-digit; (5) `mkName` is injective on such (base, occurrence) pairs;
and (6) a call leaves the `generated_models` table untouched — the
counter state is the model generator's own, disjoint by construction
from the endpoint generator's class counter, which lives in `EGenState`. -/
theorem model_name_counter_unique :
    (∀ (st : MGenState) (b : String),
      ensureUniqueName st b =
        (mkName b (st.modelCounter b),
         { st with modelCounter := bumpCounter st.modelCounter b }))
    ∧ (∀ b, mkName b 0 = b)
    ∧ (∀ (bs : List String) (i : Nat),
        ((ensureUniqueRun initMGenState bs).1).get? i
          = (bs.get? i).map (fun b => mkName b ((bs.take i).count b)))
    ∧ (∀ bs : List String, (∀ b ∈ bs, lastNonDigit b = true) →
        (ensureUniqueRun initMGenState bs).1.Nodup)
    ∧ (∀ (e : Endpoint) (mn sfx : String), sfx = "Request" ∨ sfx = "Response" →
        lastNonDigit (generateBaseModelName e mn sfx) = true)
    ∧ (∀ b₁ b₂ c₁ c₂, lastNonDigit b₁ = true → lastNonDigit b₂ = true →
        mkName b₁ c₁ = mkName b₂ c₂ → b₁ = b₂ ∧ c₁ = c₂)
    ∧ (∀ (st : MGenState) (b : String),
        (ensureUniqueName st b).2.generatedModels = st.generatedModels) := by
  refine ⟨ensureUniqueName_eq, fun b => by simp [mkName], ?_, ?_,
    generateBaseModelName_lastNonDigit, fun b₁ b₂ c₁ c₂ h₁ h₂ h => mkName_injOn h₁ h₂ h,
    fun st b => by rw [ensureUniqueName_eq]⟩
  · intro bs i
    rw [ensureUniqueRun_names, allocNames_get?]
    simp [initMGenState]
  · intro bs hval
    rw [ensureUniqueRun_names]
    exact allocNames_nodup hval

/-- Witness for C10 at a concrete run: two uses of the same
`"Request"`-suffixed base give `FooRequest` then `FooRequest1`,
pairwise distinct. -/
theorem model_name_counter_unique_witness :
    (ensureUniqueRun initMGenState ["FooRequest", "FooRequest"]).1.Nodup ∧
      (ensureUniqueRun initMGenState ["FooRequest", "FooRequest"]).1
        = ["FooRequest", "FooRequest1"] :=
  ⟨model_name_counter_unique.2.2.2.1 ["FooRequest", "FooRequest"] (by decide),
   by decide⟩

/-- C2: the pipeline is deterministic.  `runPipeline` initializes both
generator states freshly (`initMGenState`, `initEGenState`) inside each
invocation — there is no cross-run state — so two runs on the same
parsed input produce identical class-name tables, model-name maps,
per-module model lists and file paths. -/
theorem pipeline_two_runs_equal (es : List Endpoint) :
    (runPipeline es).endpointClassNames = (runPipeline es).endpointClassNames
    ∧ (runPipeline es).modelNameMap = (runPipeline es).modelNameMap
    ∧ (runPipeline es).modelsByModule = (runPipeline es).modelsByModule
    ∧ (runPipeline es).endpointFiles.map EndpointFile.filePath
        = (runPipeline es).endpointFiles.map EndpointFile.filePath :=
  ⟨rfl, rfl, rfl, rfl⟩

mutual

/-- A raw node carries both mandatory keys, recursively. -/
def wellFormedNode : RawNode → Bool
  | .mk p? t? _ _ cs => p?.isSome && t?.isSome && wellFormedList cs
  termination_by structural n => n

/-- All nodes of a raw forest are well-formed. -/
def wellFormedList : List RawNode → Bool
  | [] => true
  | c :: cs => wellFormedNode c && wellFormedList cs
  termination_by structural l => l

end

theorem parseNode_missing_path (t? : Option String) (l : Option Nat)
    (i : List (String × RawMethodInfo)) (cs : List RawNode) :
    parseNode (.mk none t? l i cs) = Except.error (SchemaError.missingKey "path") := rfl

theorem parseNode_missing_text (p : String) (l : Option Nat)
    (i : List (String × RawMethodInfo)) (cs : List RawNode) :
    parseNode (.mk (some p) none l i cs) =
      Except.error (SchemaError.missingKey "text") := rfl

theorem parseNode_some_eq (p t : String) (l : Option Nat)
    (i : List (String × RawMethodInfo)) (cs : List RawNode) :
    parseNode (.mk (some p) (some t) l i cs) =
      Except.bind (parseChildren cs) (fun parsedChildren =>
        Except.ok (Endpoint.mk p t (l.getD 0 = 1)
          (i.map (fun mm => (mm.1, parseMethod mm.1 mm.2)))
          parsedChildren
          (extractParams p)
          (generatePythonPath p)
          (parserGenerateClassName p))) := rfl

theorem parseChildren_cons_eq (c : RawNode) (cs : List RawNode) :
    parseChildren (c :: cs) =
      Except.bind (parseNode c) (fun e =>
        Except.bind (parseChildren cs) (fun es => Except.ok (e :: es))) := rfl

mutual

/-- A node parses successfully exactly when it is well-formed; a
missing mandatory key surfaces as the parse-time error. -/
theorem parseNode_spec (n : RawNode) :
    (wellFormedNode n = true → ∃ e, parseNode n = Except.ok e)
    ∧ (wellFormedNode n = false → ∃ key, (key = "path" ∨ key = "text") ∧
        parseNode n = Except.error (SchemaError.missingKey key)) := by
  cases n with
  | mk p? t? l i cs =>
    cases p? with
    | none =>
      refine ⟨fun hwf => ?_, fun _ => ⟨"path", Or.inl rfl, parseNode_missing_path ..⟩⟩
      simp [wellFormedNode] at hwf
    | some p =>
      cases t? with
      | none =>
        refine ⟨fun hwf => ?_, fun _ => ⟨"text", Or.inr rfl, parseNode_missing_text ..⟩⟩
        simp [wellFormedNode] at hwf
      | some t =>
        have hcs := parseChildren_spec cs
        constructor
        · intro hwf
          have hcstrue : wellFormedList cs = true := by
            simpa [wellFormedNode] using hwf
          obtain ⟨es, hes, _⟩ := hcs.1 hcstrue
          refine ⟨Endpoint.mk p t (l.getD 0 = 1)
            (i.map (fun mm => (mm.1, parseMethod mm.1 mm.2))) es
            (extractParams p) (generatePythonPath p)
            (parserGenerateClassName p), ?_⟩
          rw [parseNode_some_eq, hes]
          rfl
        · intro hnwf
          have hcsfalse : wellFormedList cs = false := by
            simpa [wellFormedNode] using hnwf
          obtain ⟨key, hk, herr⟩ := hcs.2 hcsfalse
          refine ⟨key, hk, ?_⟩
          rw [parseNode_some_eq, herr]
          rfl
  termination_by structural n

/-- A raw forest parses successfully, to a list of the same length,
exactly when all its nodes are well-formed; otherwise the whole parse
aborts with the missing-key error and no partial list is produced. -/
theorem parseChildren_spec (l : List RawNode) :
    (wellFormedList l = true →
      ∃ es, parseChildren l = Except.ok es ∧ es.length = l.length)
    ∧ (wellFormedList l = false → ∃ key, (key = "path" ∨ key = "text") ∧
        parseChildren l = Except.error (SchemaError.missingKey key)) := by
  cases l with
  | nil =>
    refine ⟨fun _ => ⟨[], rfl, rfl⟩, fun hfalse => ?_⟩
    simp [wellFormedList] at hfalse
  | cons c cs =>
    have hc := parseNode_spec c
    have hcs := parseChildren_spec cs
    constructor
    · intro hwf
      have hcwf : wellFormedNode c = true ∧ wellFormedList cs = true := by
        simpa [wellFormedList, Bool.and_eq_true] using hwf
      obtain ⟨e, he⟩ := hc.1 hcwf.1
      obtain ⟨es, hes, hlen⟩ := hcs.1 hcwf.2
      refine ⟨e :: es, ?_, by simp [hlen]⟩
      rw [parseChildren_cons_eq, he, hes]
      rfl
    · intro hnwf
      by_cases hcwf : wellFormedNode c = true
      · have hcsfalse : wellFormedList cs = false := by
          rw [wellFormedList, hcwf] at hnwf
          simpa using hnwf
        obtain ⟨e, he⟩ := hc.1 hcwf
        obtain ⟨key, hk, herr⟩ := hcs.2 hcsfalse
        refine ⟨key, hk, ?_⟩
        rw [parseChildren_cons_eq, he, herr]
        rfl
      · have hcfalse : wellFormedNode c = false := by
          revert hcwf
          cases wellFormedNode c <;> simp
        obtain ⟨key, hk, herr⟩ := hc.2 hcfalse
        refine ⟨key, hk, ?_⟩
        rw [parseChildren_cons_eq, herr]
        rfl
  termination_by structural l

end

/-- C4: parsing is all-or-nothing.  When every raw node carries the
mandatory `path` and `text` keys, `parse` returns the full tree (one
parsed endpoint per raw node) without raising; when any node anywhere
in the input misses one of them, the whole parse aborts with the
parse-time structural error (the specification's
`SchemaMalformedError`; the raised key is `"path"` or `"text"`), and —
by the very type of the result — no partial sequence of endpoints is
returned. -/
theorem parse_all_or_nothing (raw : List RawNode) :
    (wellFormedList raw = true →
      ∃ ts, parseSchema raw = Except.ok ts ∧ ts.length = raw.length)
    ∧ (wellFormedList raw = false →
      ∃ key, (key = "path" ∨ key = "text") ∧
        parseSchema raw = Except.error (SchemaError.missingKey key)) :=
  parseChildren_spec raw

/-- Witness for C4: a well-formed one-node schema parses to one
endpoint; a node missing `text` aborts the parse. -/
theorem parse_all_or_nothing_witness :
    (∃ ts, parseSchema [RawNode.mk (some "/access") (some "access") none [] []]
        = Except.ok ts ∧ ts.length = 1)
    ∧ (∃ key, (key = "path" ∨ key = "text") ∧
        parseSchema [RawNode.mk (some "/access") none none [] []]
          = Except.error (SchemaError.missingKey key)) :=
  ⟨(parse_all_or_nothing [RawNode.mk (some "/access") (some "access") none [] []]).1
      (by decide),
   (parse_all_or_nothing [RawNode.mk (some "/access") none none [] []]).2
      (by decide)⟩

/-! ### Order facts about the embedded string sort -/

theorem strLeList_total : ∀ as bs : List Char,
    strLeList as bs = true ∨ strLeList bs as = true := by
  intro as
  induction as with
  | nil => intro bs; left; rfl
  | cons a as ih =>
    intro bs
    cases bs with
    | nil => right; rfl
    | cons b bs =>
      by_cases hab : a = b
      · subst hab
        rcases ih bs with h | h
        · left; simp [strLeList, h]
        · right; simp [strLeList, h]
      · rcases lt_or_gt_of_ne hab with h | h
        · left
          simp [strLeList, hab, h]
        · right
          have hba : b ≠ a := fun hc => hab hc.symm
          simp [strLeList, hba, h]

theorem strLeList_trans : ∀ as bs cs : List Char,
    strLeList as bs = true → strLeList bs cs = true → strLeList as cs = true := by
  intro as
  induction as with
  | nil => intro bs cs _ _; rfl
  | cons a as ih =>
    intro bs cs h₁ h₂
    cases bs with
    | nil => simp [strLeList] at h₁
    | cons b bs =>
      cases cs with
      | nil => simp [strLeList] at h₂
      | cons c cs =>
        by_cases hab : a = b <;> by_cases hbc : b = c
        · subst hab; subst hbc
          simp only [strLeList, if_pos rfl] at h₁ h₂ ⊢
          exact ih bs cs h₁ h₂
        · subst hab
          simp [strLeList, hbc] at h₂ ⊢
          simp [hbc, h₂]
        · subst hbc
          simp [strLeList, hab] at h₁ ⊢
          simp [hab, h₁]
        · simp only [strLeList, if_neg hab] at h₁
          simp only [strLeList, if_neg hbc] at h₂
          have hac : a < c := lt_trans (of_decide_eq_true h₁) (of_decide_eq_true h₂)
          have hane : a ≠ c := ne_of_lt hac
          simp [strLeList, hane, hac]

theorem strLe_total (a b : String) : strLe a b = true ∨ strLe b a = true :=
  strLeList_total a.data b.data

theorem strLe_trans {a b c : String} (h₁ : strLe a b = true)
    (h₂ : strLe b c = true) : strLe a c = true :=
  strLeList_trans a.data b.data c.data h₁ h₂

theorem mem_insertSorted {x y : String} : ∀ {l : List String},
    y ∈ insertSorted x l ↔ y = x ∨ y ∈ l := by
  intro l
  induction l with
  | nil => simp [insertSorted]
  | cons z zs ih =>
    unfold insertSorted
    by_cases h : strLe x z = true
    · simp [h]
    · simp only [if_neg h, List.mem_cons, ih]
      tauto

theorem insertSorted_perm (x : String) : ∀ (l : List String),
    List.Perm (insertSorted x l) (x :: l) := by
  intro l
  induction l with
  | nil => simp [insertSorted]
  | cons z zs ih =>
    unfold insertSorted
    by_cases h : strLe x z = true
    · simp [h]
    · rw [if_neg h]
      exact List.Perm.trans (List.Perm.cons z ih) (List.Perm.swap x z zs)

theorem insertSorted_pairwise {x : String} : ∀ {l : List String},
    l.Pairwise (fun a b => strLe a b = true) →
    (insertSorted x l).Pairwise (fun a b => strLe a b = true) := by
  intro l
  induction l with
  | nil => intro _; simp [insertSorted]
  | cons z zs ih =>
    intro hp
    rcases List.pairwise_cons.mp hp with ⟨hz, hzs⟩
    unfold insertSorted
    by_cases h : strLe x z = true
    · rw [if_pos h]
      refine List.pairwise_cons.mpr ⟨?_, hp⟩
      intro y hy
      rcases List.mem_cons.mp hy with hyz | hyzs
      · exact hyz ▸ h
      · exact strLe_trans h (hz y hyzs)
    · rw [if_neg h]
      refine List.pairwise_cons.mpr ⟨?_, ih hzs⟩
      intro y hy
      rcases mem_insertSorted.mp hy with hyx | hyzs
      · subst hyx
        rcases strLe_total y z with h' | h'
        · exact absurd h' h
        · exact h'
      · exact hz y hyzs

theorem sortStrings_perm : ∀ (l : List String), List.Perm (sortStrings l) l := by
  intro l
  induction l with
  | nil => exact List.Perm.refl []
  | cons x xs ih =>
    exact List.Perm.trans (insertSorted_perm x (sortStrings xs))
      (List.Perm.cons x ih)

theorem sortStrings_pairwise (l : List String) :
    (sortStrings l).Pairwise (fun a b => strLe a b = true) := by
  induction l with
  | nil => simp [sortStrings]
  | cons x xs ih => exact insertSorted_pairwise ih

theorem mem_sortStrings {y : String} {l : List String} :
    y ∈ sortStrings l ↔ y ∈ l :=
  (sortStrings_perm l).mem_iff

theorem dedupSeen_mem {x : String} : ∀ {l seen : List String},
    x ∈ dedupSeen seen l ↔ x ∈ l ∧ seen.contains x = false := by
  intro l
  induction l with
  | nil => simp [dedupSeen]
  | cons y ys ih =>
    intro seen
    unfold dedupSeen
    by_cases h : seen.contains y = true
    · rw [if_pos h]
      rw [ih]
      constructor
      · rintro ⟨hmem, hsc⟩
        exact ⟨List.mem_cons_of_mem y hmem, hsc⟩
      · rintro ⟨hmem, hsc⟩
        rcases List.mem_cons.mp hmem with hxy | hmem'
        · subst hxy
          rw [h] at hsc
          exact Bool.noConfusion hsc
        · exact ⟨hmem', hsc⟩
    · rw [if_neg h]
      constructor
      · intro hmem
        rcases List.mem_cons.mp hmem with hxy | hmem'
        · subst hxy
          refine ⟨List.mem_cons_self _ _, ?_⟩
          revert h
          cases hc : seen.contains x <;> simp
        · rcases ih.mp hmem' with ⟨hys, hsc⟩
          rw [List.contains_cons] at hsc
          simp only [Bool.or_eq_false_iff] at hsc
          exact ⟨List.mem_cons_of_mem y hys, hsc.2⟩
      · rintro ⟨hmem, hsc⟩
        rcases List.mem_cons.mp hmem with hxy | hmem'
        · subst hxy
          exact List.mem_cons_self _ _
        · by_cases hxy : x = y
          · subst hxy
            exact List.mem_cons_self _ _
          · refine List.mem_cons_of_mem y (ih.mpr ⟨hmem', ?_⟩)
            rw [List.contains_cons]
            simp only [Bool.or_eq_false_iff]
            refine ⟨?_, hsc⟩
            simp only [beq_eq_false_iff_ne, ne_eq]
            first
              | exact fun h' => hxy h'.symm
              | exact fun h' => hxy h' 

theorem dedupSeen_nodup : ∀ (l seen : List String), (dedupSeen seen l).Nodup := by
  intro l
  induction l with
  | nil => intro seen; simp [dedupSeen]
  | cons y ys ih =>
    intro seen
    unfold dedupSeen
    by_cases h : seen.contains y = true
    · rw [if_pos h]
      exact ih seen
    · rw [if_neg h]
      refine List.nodup_cons.mpr ⟨?_, ih (y :: seen)⟩
      intro hmem
      have := (dedupSeen_mem.mp hmem).2
      rw [List.contains_cons] at this
      simp at this

theorem listDedup_nodup (l : List String) : (listDedup l).Nodup :=
  dedupSeen_nodup l []

theorem mem_listDedup {x : String} {l : List String} :
    x ∈ listDedup l ↔ x ∈ l := by
  unfold listDedup
  rw [dedupSeen_mem]
  simp

theorem contains_false_not_mem {x : String} {l : List String}
    (h : l.contains x = false) : x ∉ l := by
  intro hmem
  have : l.contains x = true := List.elem_eq_true_of_mem hmem
  rw [h] at this
  exact Bool.noConfusion this

theorem contains_true_mem {x : String} {l : List String}
    (h : l.contains x = true) : x ∈ l := by
  have := List.elem_iff.mp h
  exact this

/-- The pre-sort member list of `literalValues`. -/
theorem literalValues_eq (es : List String) (d : Option PyVal) :
    literalValues es d =
      sortStrings
        (match d with
         | some (PyVal.s s) =>
           if (listDedup es).contains s then listDedup es else listDedup es ++ [s]
         | _ => listDedup es) := by
  cases d with
  | none => rfl
  | some v => cases v <;> rfl

theorem literalValues_pairwise (es : List String) (d : Option PyVal) :
    (literalValues es d).Pairwise (fun a b => strLe a b = true) := by
  rw [literalValues_eq]
  exact sortStrings_pairwise _

theorem literalValues_nodup (es : List String) (d : Option PyVal) :
    (literalValues es d).Nodup := by
  rw [literalValues_eq]
  rw [(sortStrings_perm _).nodup_iff]
  cases d with
  | none => exact listDedup_nodup es
  | some v =>
    cases v with
    | s s =>
      by_cases h : (listDedup es).contains s = true
      · simp only [h, if_true]
        exact listDedup_nodup es
      · have hfalse : (listDedup es).contains s = false := by
          revert h
          cases (listDedup es).contains s <;> simp
        simp only [hfalse, Bool.false_eq_true, if_false]
        rw [List.nodup_append]
        exact ⟨listDedup_nodup es, List.nodup_singleton s,
          by simpa using fun hmem => contains_false_not_mem hfalse hmem⟩
    | i v => exact listDedup_nodup es
    | b v => exact listDedup_nodup es

theorem mem_literalValues_of_enum {es : List String} {d : Option PyVal} {v : String}
    (hv : v ∈ es) : v ∈ literalValues es d := by
  rw [literalValues_eq, mem_sortStrings]
  cases d with
  | none => exact mem_listDedup.mpr hv
  | some dv =>
    cases dv with
    | s s =>
      by_cases h : (listDedup es).contains s = true
      · simp only [h, if_true]
        exact mem_listDedup.mpr hv
      · have hfalse : (listDedup es).contains s = false := by
          revert h
          cases (listDedup es).contains s <;> simp
        simp only [hfalse, Bool.false_eq_true, if_false]
        exact List.mem_append_left _ (mem_listDedup.mpr hv)
    | i w => exact mem_listDedup.mpr hv
    | b w => exact mem_listDedup.mpr hv

theorem mem_literalValues_default {es : List String} {s : String} :
    s ∈ literalValues es (some (PyVal.s s)) := by
  rw [literalValues_eq, mem_sortStrings]
  by_cases h : (listDedup es).contains s = true
  · simp only [h, if_true]
    exact contains_true_mem h
  · have hfalse : (listDedup es).contains s = false := by
      revert h
      cases (listDedup es).contains s <;> simp
    simp only [hfalse, Bool.false_eq_true, if_false]
    exact List.mem_append_right _ (List.mem_singleton_self s)

/-- C3 counterexample: a string parameter with the two-member enum
`["a", "b"]` but also a recognized domain format (`"pve-node"`) does
not map to a union of literal values — `_map_primitive_type` applies
the `FORMAT_MAPPINGS` override after `_map_string_type`, clobbering the
`Literal[...]` type with `ProxmoxNode`. -/
theorem enum_literal_format_override_counterexample :
    (mapParameterType (ParamSpec.ofCore
        { type_ := some "string", enum := some ["a", "b"],
          format := some "pve-node" }) "p").1 = "ProxmoxNode"
    ∧ "ProxmoxNode" ≠ mkLiteralStr (literalValues ["a", "b"] none)
    ∧ strStartsWith "ProxmoxNode" "Literal[" = false :=
  ⟨by decide, by decide, by decide⟩

/-- C3 (amended): for every string parameter whose format is absent or
not a recognized domain format, an enum of at most 10 members maps to
the closed literal union (optionally `| None`-wrapped): the literal set
is sorted, duplicate-free, contains every enum member, and contains the
(string) default even when it is not an enum member; over 10 members
the mapper falls back to the plain string type; concretely, enum
`["a","b"]` with default `"c"` yields exactly the sorted literal set
`["a","b","c"]`. -/
theorem enum_literal_folding (spec : ParamSpecCore) (es : List String) (pn : String)
    (htype : spec.type_ = some "string")
    (hfmt : ∀ f, spec.format = some f → formatLookup f = none)
    (henum : spec.enum = some es) :
    (es.length ≤ 10 →
      (mapParameterType (ParamSpec.ofCore spec) pn).1
        = mkLiteralStr (literalValues es spec.default)
          ++ (if spec.optional then " | None" else ""))
    ∧ (10 < es.length →
      (mapParameterType (ParamSpec.ofCore spec) pn).1
        = "str" ++ (if spec.optional then " | None" else ""))
    ∧ (literalValues es spec.default).Pairwise (fun a b => strLe a b = true)
    ∧ (literalValues es spec.default).Nodup
    ∧ (∀ v ∈ es, v ∈ literalValues es spec.default)
    ∧ (∀ s, spec.default = some (PyVal.s s) → s ∈ literalValues es spec.default)
    ∧ literalValues ["a", "b"] (some (PyVal.s "c")) = ["a", "b", "c"]
    ∧ mkLiteralStr ["a", "b", "c"] = "Literal[\"a\", \"b\", \"c\"]" := by
  have hbase :
      (mapParameterType (ParamSpec.ofCore spec) pn).1
        = mapStringType spec spec.default
          ++ (if spec.optional then " | None" else "") := by
    cases hsf : spec.format with
    | none =>
      cases hopt : spec.optional <;>
        cases hd : spec.default <;>
          simp [mapParameterType, ParamSpec.ofCore, mapPrimitiveType,
            adjustTypeForDefault, htype, hsf, hopt, hd]
    | some f =>
      have hlook := hfmt f hsf
      cases hopt : spec.optional <;>
        cases hd : spec.default <;>
          simp [mapParameterType, ParamSpec.ofCore, mapPrimitiveType,
            adjustTypeForDefault, htype, hsf, hopt, hd, hlook]
  refine ⟨?_, ?_, literalValues_pairwise es spec.default,
    literalValues_nodup es spec.default,
    fun v hv => mem_literalValues_of_enum hv,
    ?_, by decide, by decide⟩
  · intro h10
    rw [hbase]
    unfold mapStringType
    rw [henum]
    simp [h10]
  · intro h10
    rw [hbase]
    unfold mapStringType
    rw [henum]
    simp [Nat.not_le.mpr h10]
  · intro s hs
    rw [hs]
    exact mem_literalValues_default

/-- Witness for C3 at the concrete spec of the scenario: enum
`["a","b"]`, default `"c"`, no format, non-optional. -/
theorem enum_literal_folding_witness :
    (mapParameterType (ParamSpec.ofCore
        { type_ := some "string", enum := some ["a", "b"],
          default := some (PyVal.s "c") }) "p").1
      = "Literal[\"a\", \"b\", \"c\"]" := by
  have h := (enum_literal_folding
    { type_ := some "string", enum := some ["a", "b"],
      default := some (PyVal.s "c") } ["a", "b"] "p"
    rfl (fun f hf => by exact Option.noConfusion hf) rfl).1 (by decide)
  rw [h]
  decide

/-- The `id` parameter of the C5 scenario: integer, minimum 1. -/
def c5ParamId : Parameter := { name := "id", type_ := "integer", minimum := some 1 }

/-- The `name` parameter of the C5 scenario: string, optional. -/
def c5ParamName : Parameter := { name := "name", type_ := "string", optional := true }

/-- The single GET method of the C5 scenario. -/
def c5Method : Method :=
  { method := "GET", name := "", parameters := [c5ParamId, c5ParamName] }

/-- The one-node input tree of the C5 scenario: `path="/test"` with the
GET method above. -/
def c5Endpoint : Endpoint := .mk "/test" "test" false [("GET", c5Method)] [] [] "" ""

/-- The expected request model: `TestGETRequest` with field `id` of the
integer base type (this implementation's permissive `int | str`)
carrying constraint `ge = 1`, and field `name` of the optional-wrapped
string type. -/
def c5ExpectedModel : PydanticModel :=
  { name := "TestGETRequest"
    fields :=
      [{ name := "id", typeAnn := "int | str",
         fieldKwargs := { ge := some (NumVal.int 1) } },
       { name := "name", typeAnn := "str | None", fieldKwargs := {} }]
    docstring := some "Request model for /test GET" }

/-- The expected endpoint file: one class `TestEndpoints` whose GET
method is named `get` and references `TestGETRequest` as parameter
model. -/
def c5ExpectedFile : EndpointFile :=
  { filePath := "test/__init__.py"
    classes :=
      [{ name := "TestEndpoints"
         docstring := some "Root endpoint class for test API endpoints."
         properties := []
         methods :=
           [{ name := "get"
              httpMethod := "GET"
              paramModel := some "TestGETRequest"
              responseModel := none
              description := "GET operation"
              returnStatement :=
                "return await self._get(params=params.model_dump(exclude_none=True) if params else None)" }]
         callMethod := none }] }

/-- C5: on the scenario input the pipeline produces exactly one request
model `TestGETRequest` with the two expected fields (id: integer base
type with `ge = 1`; name: optional string) and exactly one endpoint
class `TestEndpoints` whose `get` method references `TestGETRequest`. -/
theorem scenario_test_pipeline :
    (runPipeline [c5Endpoint]).modelsByModule = [("test", [c5ExpectedModel])]
    ∧ (runPipeline [c5Endpoint]).modelNameMap
        = [("TestGETRequest", "TestGETRequest")]
    ∧ (runPipeline [c5Endpoint]).endpointFiles = [c5ExpectedFile]
    ∧ (runPipeline [c5Endpoint]).endpointClassNames
        = [("/test", "TestEndpoints")] :=
  ⟨by decide, by decide, by decide, by decide⟩

/-- The `/nodes/{node}/qemu/{vmid}` node of the file-path example, with
its path parameters as the parser extracts them. -/
def c6NodesQemuVmid : Endpoint :=
  .mk "/nodes/{node}/qemu/{vmid}" "{vmid}" false [] [] ["node", "vmid"] "" ""

/-- The `/access` node of the file-path example (no path parameters). -/
def c6Access : Endpoint := .mk "/access" "access" false [] [] [] "" ""

/-- C6: file-path derivation.  Concretely,
`/nodes/{node}/qemu/{vmid}` maps to `nodes/node_item/qemu/vmid_item/_item`
(with the `.py` module extension) and `/access` maps to `access`; the
parameter lists used in the two examples are exactly what the parser's
placeholder extraction yields.  In general a parameterized segment
`\x7bx\x7d` (brace-free name) converts to the keyword-fixed `x_item`
directory segment, a non-parameterized segment converts to its
hyphens-to-underscores keyword-fixed form, a node whose `path_params`
is nonempty resolves to `_item` inside its directory, and Python
keywords are suffixed, e.g. segment `\x7bclass\x7d`. -/
theorem file_path_derivation :
    getFilePath c6NodesQemuVmid = "nodes/node_item/qemu/vmid_item/_item.py"
    ∧ getFilePath c6Access = "access.py"
    ∧ extractParams "/nodes/{node}/qemu/{vmid}" = ["node", "vmid"]
    ∧ extractParams "/access" = []
    ∧ (∀ s : String, (∀ c ∈ s.data, c ≠ '{' ∧ c ≠ '}') →
        convertSegment ("\x7b" ++ s ++ "\x7d") = keywordFix s ++ "_item")
    ∧ (∀ s : String, (strStartsWith s "\x7b" && strEndsWith s "\x7d") = false →
        convertSegment s = keywordFix (charReplace '-' '_' s))
    ∧ (∀ e : Endpoint, e.path_params ≠ [] → ¬(pathParts e.path).isEmpty →
        getFilePath e =
          String.intercalate "/" ((pathParts e.path).map convertSegment ++ ["_item"])
            ++ ".py")
    ∧ convertSegment "{class}" = "class__item"
    ∧ convertSegment "local-storage" = "local_storage" := by
  refine ⟨by decide, by decide, by decide, by decide, ?_, ?_, ?_, by decide, by decide⟩
  · intro s hs
    have hdata : ("\x7b" ++ s ++ "\x7d").data = '{' :: (s.data ++ ['}']) := by
      simp [String.data_append]
    have hstart : strStartsWith ("\x7b" ++ s ++ "\x7d") "\x7b" = true := by
      simp [strStartsWith, hdata, startsWithList]
    have hend : strEndsWith ("\x7b" ++ s ++ "\x7d") "\x7d" = true := by
      simp only [strEndsWith, hdata]
      simp [startsWithList, List.reverse_append]
    have hstrip : pyStrip ['{', '}'] ("\x7b" ++ s ++ "\x7d") = s := by
      unfold pyStrip
      rw [hdata]
      rw [List.dropWhile_cons_of_pos (by decide)]
      cases hsd : s.data with
      | nil =>
        apply String.ext
        simp [hsd]
      | cons c t =>
        have hc : (c ∈ ['{', '}']) = False := by
          have := hs c (by simp [hsd])
          simp [this.1, this.2]
        rw [List.cons_append, List.dropWhile_cons_of_neg (by simp [hc])]
        rw [show (c :: (t ++ ['\x7d'])).reverse = '\x7d' :: (t.reverse ++ [c]) by simp]
        rw [List.dropWhile_cons_of_pos (by decide)]
        have hrev : List.dropWhile (· ∈ ['{', '}']) (t.reverse ++ [c]) =
            t.reverse ++ [c] := by
          cases htr : t.reverse with
          | nil =>
            simp only [List.nil_append]
            exact List.dropWhile_cons_of_neg (by simp [hc])
          | cons d u =>
            have hd : (d ∈ ['{', '}']) = False := by
              have hdm : d ∈ s.data := by
                rw [hsd]
                right
                have hmem : d ∈ t.reverse := by
                  rw [htr]
                  exact List.mem_cons_self d u
                exact List.mem_reverse.mp hmem
              have := hs d hdm
              simp [this.1, this.2]
            rw [List.cons_append]
            exact List.dropWhile_cons_of_neg (by simp [hd])
        rw [hrev]
        apply String.ext
        simp [hsd]
    unfold convertSegment
    rw [hstart, hend, hstrip]
    rfl
  · intro s hcond
    unfold convertSegment
    rw [hcond]
    rfl
  · intro e hpp hparts
    unfold getFilePath
    rw [if_neg hparts]
    have : e.path_params.isEmpty = false := by
      revert hpp
      cases e.path_params <;> simp
    rw [this]
    rfl

/-- Witness for C6, discharging the general-rule hypotheses at the
concrete example segments and node. -/
theorem file_path_derivation_witness :
    convertSegment ("\x7b" ++ "node" ++ "\x7d") = keywordFix "node" ++ "_item"
    ∧ getFilePath c6NodesQemuVmid =
        String.intercalate "/"
          ((pathParts c6NodesQemuVmid.path).map convertSegment ++ ["_item"]) ++ ".py" :=
  ⟨file_path_derivation.2.2.2.2.1 "node" (by decide),
   file_path_derivation.2.2.2.2.2.2.1 c6NodesQemuVmid (by decide) (by decide)⟩

theorem pythonKeywords_no_underscore : ∀ k ∈ pythonKeywords, '_' ∉ k.data := by
  decide

theorem keywordFix_not_keyword (x : String) : keywordFix x ∉ pythonKeywords := by
  unfold keywordFix
  by_cases h : x ∈ pythonKeywords
  · rw [if_pos h]
    intro hmem
    apply pythonKeywords_no_underscore _ hmem
    rw [String.data_append]
    exact List.mem_append_right _ (by decide)
  · rw [if_neg h]
    exact h

theorem append_underscore_not_keyword (x : String) :
    x ++ "_" ∉ pythonKeywords := by
  intro hmem
  apply pythonKeywords_no_underscore _ hmem
  rw [String.data_append]
  exact List.mem_append_right _ (by decide)

theorem sanitizeMethodName_not_keyword (s : String) :
    sanitizeMethodName s ∉ pythonKeywords := by
  unfold sanitizeMethodName
  by_cases h : s ≠ ""
  · simp only [if_pos h]
    by_cases h2 : keywordFix (charReplace '-' '_' s) ≠ ""
    · simp only [if_pos h2]
      exact keywordFix_not_keyword _
    · simp only [if_neg h2]
      decide
  · simp only [if_neg h]
    have hs : s = "" := by simpa using h
    subst hs
    decide

theorem getMethodName_not_keyword (m : Method) :
    getMethodName m ∉ pythonKeywords := by
  unfold getMethodName
  by_cases h1 : m.method = "GET"
  · simp only [if_pos h1]
    cases m.returns with
    | none => decide
    | some r =>
      by_cases h : r.type_ = "array"
      · simp only [if_pos h]
        decide
      · simp only [if_neg h]
        decide
  · simp only [if_neg h1]
    by_cases h2 : m.method = "POST"
    · simp only [if_pos h2]
      exact sanitizeMethodName_not_keyword _
    · simp only [if_neg h2]
      by_cases h3 : m.method = "PUT"
      · simp only [if_pos h3]
        exact sanitizeMethodName_not_keyword _
      · simp only [if_neg h3]
        by_cases h4 : m.method = "DELETE"
        · simp only [if_pos h4]
          decide
        · simp only [if_neg h4]
          exact sanitizeMethodName_not_keyword _

/-- The resolved method name of `_generate_method` in closed form. -/
theorem generateMethod_name (nm : List (String × String)) (e : Endpoint)
    (mk : String) (m : Method) (forb : List String) :
    ∃ mi, generateMethod nm e mk m forb = some mi ∧
      mi.name = (if getMethodName m ∈ forb then
          (if m.method = "GET" then "get" else getMethodName m ++ "_")
        else getMethodName m) := by
  unfold generateMethod
  by_cases h : getMethodName m ∈ forb
  · by_cases h2 : m.method = "GET" <;>
      exact ⟨_, rfl, by simp [h, h2]⟩
  · exact ⟨_, rfl, by simp [h]⟩

/-- C7: for every declared HTTP method the generated Python method name
follows the fixed verb mapping (GET → list iff the declared return type
is an array, else get; POST → declared operation name or create; PUT →
declared operation name or update; DELETE → delete), the result is never
a Python reserved word, and when the computed name collides with an
already-emitted property name on the same class it is suffixed with an
underscore — except a colliding GET method becomes plain get.  Concrete
instances are checked at the end. -/
theorem method_name_mapping :
    (∀ m : Method, m.method = "GET" →
      getMethodName m =
        (match m.returns with
         | some r => if r.type_ = "array" then "list" else "get"
         | none => "get"))
    ∧ (∀ m : Method, m.method = "POST" →
        getMethodName m =
          sanitizeMethodName (if m.name = "" then "create" else m.name))
    ∧ (∀ m : Method, m.method = "PUT" →
        getMethodName m =
          sanitizeMethodName (if m.name = "" then "update" else m.name))
    ∧ (∀ m : Method, m.method = "DELETE" → getMethodName m = "delete")
    ∧ (∀ m : Method, getMethodName m ∉ pythonKeywords)
    ∧ (∀ (nm : List (String × String)) (e : Endpoint) (mk : String)
        (m : Method) (forb : List String) (mi : MethodInfo),
        generateMethod nm e mk m forb = some mi →
          mi.name =
            (if getMethodName m ∈ forb then
              (if m.method = "GET" then "get" else getMethodName m ++ "_")
            else getMethodName m)
          ∧ mi.name ∉ pythonKeywords)
    ∧ getMethodName { method := "GET", name := "", returns := some { type_ := "array" } } = "list"
    ∧ getMethodName { method := "GET", name := "", returns := some { type_ := "object" } } = "get"
    ∧ getMethodName { method := "GET", name := "" } = "get"
    ∧ getMethodName { method := "POST", name := "" } = "create"
    ∧ getMethodName { method := "POST", name := "resize-disk" } = "resize_disk"
    ∧ getMethodName { method := "POST", name := "import" } = "import_"
    ∧ getMethodName { method := "PUT", name := "" } = "update"
    ∧ getMethodName { method := "DELETE", name := "whatever" } = "delete" := by
  refine ⟨?_, ?_, ?_, ?_, getMethodName_not_keyword, ?_,
    by decide, by decide, by decide, by decide, by decide, by decide,
    by decide, by decide⟩
  · intro m hm
    simp [getMethodName, hm]
  · intro m hm
    simp [getMethodName, hm]
  · intro m hm
    simp [getMethodName, hm]
  · intro m hm
    simp [getMethodName, hm]
  · intro nm e mk m forb mi h
    obtain ⟨mi', h', hn⟩ := generateMethod_name nm e mk m forb
    rw [h] at h'
    injection h' with he
    subst he
    refine ⟨hn, ?_⟩
    rw [hn]
    by_cases hf : getMethodName m ∈ forb
    · rw [if_pos hf]
      by_cases hg : m.method = "GET"
      · rw [if_pos hg]
        decide
      · rw [if_neg hg]
        exact append_underscore_not_keyword _
    · rw [if_neg hf]
      exact getMethodName_not_keyword m

/-- Witness for C7, applying the DELETE and POST conjuncts at concrete
methods. -/
theorem method_name_mapping_witness :
    getMethodName { method := "DELETE", name := "x" } = "delete"
    ∧ getMethodName { method := "POST", name := "resize-disk" } =
        sanitizeMethodName
          (if ("resize-disk" : String) = "" then "create" else "resize-disk") :=
  ⟨method_name_mapping.2.2.2.1 { method := "DELETE", name := "x" } (by decide),
   method_name_mapping.2.1 { method := "POST", name := "resize-disk" } (by decide)⟩

/-- Head-character digit test used to analyse `_sanitize_field_name`. -/
def headNotDigit : List Char → Bool
  | c :: _ => !c.isDigit
  | [] => true

theorem map_word_fixed (l : List Char) (hw : ∀ c ∈ l, isWordChar c) :
    l.map (fun c => if isWordChar c then c else '_') = l := by
  induction l with
  | nil => rfl
  | cons c cs ih =>
    have hc := hw c (List.mem_cons_self c cs)
    simp only [List.map_cons, if_pos hc,
      ih (fun d hd => hw d (List.mem_cons_of_mem c hd))]

theorem map_word_all (l : List Char) :
    ∀ c ∈ l.map (fun c => if isWordChar c then c else '_'), isWordChar c := by
  intro c hc
  obtain ⟨a, _, rfl⟩ := List.mem_map.mp hc
  by_cases h : isWordChar a
  · simpa [h]
  · simp only [if_neg h]
    decide

theorem underscore_mem_not_keyword (x : String) (h : '_' ∈ x.data) :
    x ∉ pythonKeywords :=
  fun hm => pythonKeywords_no_underscore x hm h

/-- `_sanitize_field_name` fixes every identifier made of word
characters that does not start with a digit and is not a reserved
word. -/
theorem sanitize_fixed (l : List Char) (hw : ∀ c ∈ l, isWordChar c)
    (hh : headNotDigit l = true) (hk : (⟨l⟩ : String) ∉ pythonKeywords) :
    sanitizeFieldName ⟨l⟩ = ⟨l⟩ := by
  unfold sanitizeFieldName
  simp only [map_word_fixed l hw]
  cases l with
  | nil => simp [hk]
  | cons c cs =>
    have hd : c.isDigit = false := by simpa [headNotDigit] using hh
    simp [hd, hk]

theorem pythonKeywords_word : ∀ k ∈ pythonKeywords, ∀ c ∈ k.data, isWordChar c := by
  decide

theorem pythonKeywords_headNotDigit :
    ∀ k ∈ pythonKeywords, headNotDigit k.data = true := by
  decide

/-- Idempotence of `_sanitize_field_name`: a second application changes
nothing. -/
theorem sanitizeFieldName_idem (s : String) :
    sanitizeFieldName (sanitizeFieldName s) = sanitizeFieldName s := by
  obtain ⟨ls⟩ := s
  have hw0 := map_word_all ls
  have hstep : sanitizeFieldName ⟨ls⟩ =
      (let l := ls.map (fun c => if isWordChar c then c else '_')
       let u : String :=
         match l with
         | c :: _ => if c.isDigit then "field_" ++ (⟨l⟩ : String) else (⟨l⟩ : String)
         | [] => (⟨l⟩ : String)
       if u ∈ pythonKeywords then u ++ "_" else u) := rfl
  rw [hstep]
  simp only
  generalize hl : ls.map (fun c => if isWordChar c then c else '_') = l at hw0
  cases l with
  | nil =>
    simp only
    rw [if_neg (by decide : (⟨([] : List Char)⟩ : String) ∉ pythonKeywords)]
    exact sanitize_fixed [] (by simp) (by decide) (by decide)
  | cons c cs =>
    by_cases hd : c.isDigit
    · simp only [if_pos hd]
      have hnk : ("field_" ++ (⟨c :: cs⟩ : String)) ∉ pythonKeywords := by
        apply underscore_mem_not_keyword
        rw [String.data_append]
        exact List.mem_append_left _ (by decide)
      rw [if_neg hnk]
      have hfix := sanitize_fixed (("field_" : String).data ++ (c :: cs))
        (by
          intro d hdm
          rcases List.mem_append.mp hdm with h1 | h2
          · have hall : ∀ e ∈ ("field_" : String).data, isWordChar e := by decide
            exact hall d h1
          · exact hw0 d h2)
        (by rfl)
        (by
          apply underscore_mem_not_keyword
          exact List.mem_append_left _ (by decide))
      exact hfix
    · simp only [if_neg hd]
      by_cases hk : (⟨c :: cs⟩ : String) ∈ pythonKeywords
      · rw [if_pos hk]
        have hfix := sanitize_fixed ((c :: cs) ++ ['_'])
          (by
            intro d hdm
            rcases List.mem_append.mp hdm with h1 | h2
            · exact hw0 d h1
            · have hall : ∀ e ∈ ['_'], isWordChar e := by decide
              exact hall d h2)
          (by
            simp only [List.cons_append, headNotDigit]
            simp [hd])
          (by
            apply underscore_mem_not_keyword
            exact List.mem_append_right _ (by decide))
        exact hfix
      · rw [if_neg hk]
        exact sanitize_fixed (c :: cs) hw0 (by simp [headNotDigit, hd]) hk

/-- `_build_field_kwargs` never writes a serialization alias. -/
theorem buildFieldKwargs_alias (spec : ParamSpecCore) (dv : Option PyVal)
    (t : String) : (buildFieldKwargs spec dv t).serialization_alias = none := by
  unfold buildFieldKwargs
  repeat' split
  all_goals rfl

/-- `map_parameter_type` never writes a serialization alias either. -/
theorem mapParameterType_alias : ∀ (spec : ParamSpec) (nm : String),
    (mapParameterType spec nm).2.serialization_alias = none
  | .mk core itemsOpt, nm => by
    unfold mapParameterType
    by_cases h1 : core.type_.getD "string" = "array"
    · simp only [if_pos h1]
      cases itemsOpt <;> exact buildFieldKwargs_alias ..
    · simp only [if_neg h1]
      by_cases h2 : core.type_.getD "string" = "object"
      · simp only [if_pos h2, mapObjectType]
        exact buildFieldKwargs_alias ..
      · simp only [if_neg h2, mapPrimitiveType]
        exact buildFieldKwargs_alias ..

/-- C8: field-name sanitization is idempotent, and the request-model
field loop records the original wire name as a serialization alias (and
as `original_name`) exactly when sanitization changed the name; when the
name is already clean no alias is attached.  The concrete hyphen example
`vm-id` is checked at the end. -/
theorem sanitize_alias_roundtrip :
    (∀ s : String, sanitizeFieldName (sanitizeFieldName s) = sanitizeFieldName s)
    ∧ (∀ p : Parameter, sanitizeFieldName p.name ≠ p.name →
        (requestField p).fieldKwargs.serialization_alias = some p.name
        ∧ (requestField p).originalName = some p.name
        ∧ (requestField p).name = sanitizeFieldName p.name
        ∧ sanitizeFieldName (requestField p).name = (requestField p).name)
    ∧ (∀ p : Parameter, sanitizeFieldName p.name = p.name →
        (requestField p).fieldKwargs.serialization_alias = none
        ∧ (requestField p).originalName = none
        ∧ (requestField p).name = p.name)
    ∧ sanitizeFieldName "vm-id" = "vm_id"
    ∧ (requestField { name := "vm-id", type_ := "string" }).name = "vm_id"
    ∧ (requestField { name := "vm-id", type_ := "string" }).fieldKwargs.serialization_alias = some "vm-id"
    ∧ sanitizeFieldName "vmid" = "vmid"
    ∧ (requestField { name := "vmid", type_ := "string" }).fieldKwargs.serialization_alias = none := by
  refine ⟨sanitizeFieldName_idem, ?_, ?_, by decide, by decide, by decide,
    by decide, by decide⟩
  · intro p hne
    refine ⟨?_, ?_, ?_, ?_⟩
    · show (requestField p).fieldKwargs.serialization_alias = some p.name
      unfold requestField
      simp only [if_pos hne]
    · unfold requestField
      simp only [if_pos hne]
    · rfl
    · show sanitizeFieldName (sanitizeFieldName p.name) = sanitizeFieldName p.name
      exact sanitizeFieldName_idem p.name
  · intro p heq
    have hne : ¬ sanitizeFieldName p.name ≠ p.name := by simp [heq]
    refine ⟨?_, ?_, ?_⟩
    · show (requestField p).fieldKwargs.serialization_alias = none
      unfold requestField
      simp only [if_neg hne]
      cases hdesc : p.description with
      | none =>
        simp only [hdesc]
        exact mapParameterType_alias ..
      | some d =>
        simp only [hdesc]
        by_cases hd : d = ""
        · simp only [if_pos hd]
          exact mapParameterType_alias ..
        · simp only [if_neg hd]
          exact mapParameterType_alias ..
    · unfold requestField
      simp only [if_neg hne]
    · show sanitizeFieldName p.name = p.name
      exact heq

/-- Witness for C8, applying the alias conjuncts at the concrete
hyphenated parameter `vm-id` and the clean parameter `vmid`. -/
theorem sanitize_alias_roundtrip_witness :
    ((requestField { name := "vm-id", type_ := "string" }).fieldKwargs.serialization_alias = some "vm-id"
      ∧ (requestField { name := "vm-id", type_ := "string" }).originalName = some "vm-id"
      ∧ (requestField { name := "vm-id", type_ := "string" }).name = sanitizeFieldName "vm-id"
      ∧ sanitizeFieldName (requestField { name := "vm-id", type_ := "string" }).name =
          (requestField { name := "vm-id", type_ := "string" }).name)
    ∧ ((requestField { name := "vmid", type_ := "string" }).fieldKwargs.serialization_alias = none
      ∧ (requestField { name := "vmid", type_ := "string" }).originalName = none
      ∧ (requestField { name := "vmid", type_ := "string" }).name = "vmid") :=
  ⟨sanitize_alias_roundtrip.2.1 { name := "vm-id", type_ := "string" } (by decide),
   sanitize_alias_roundtrip.2.2.1 { name := "vmid", type_ := "string" } (by decide)⟩

/-- `_build_field_kwargs` never reads the `optional` flag. -/
theorem buildFieldKwargs_ignores_optional (core : ParamSpecCore) (b : Bool)
    (dv : Option PyVal) (t : String) :
    buildFieldKwargs { core with optional := b } dv t = buildFieldKwargs core dv t := rfl

/-- The optional wrapper commutes out of `map_parameter_type`: flipping
`optional` to true appends `" | None"` to the type and leaves the field
kwargs untouched, whatever the raw type. -/
theorem mapParameterType_optional (core : ParamSpecCore)
    (itemsOpt : Option ParamSpec) (nm : String) :
    mapParameterType (ParamSpec.mk { core with optional := true } itemsOpt) nm =
      ((mapParameterType (ParamSpec.mk { core with optional := false } itemsOpt) nm).1
          ++ " | None",
       (mapParameterType (ParamSpec.mk { core with optional := false } itemsOpt) nm).2) := by
  unfold mapParameterType
  dsimp only
  by_cases h1 : core.type_.getD "string" = "array"
  · simp only [if_pos h1]
    cases itemsOpt <;> rfl
  · simp only [if_neg h1]
    by_cases h2 : core.type_.getD "string" = "object"
    · simp only [if_pos h2]
      rfl
    · simp only [if_neg h2]
      rfl

/-- On an integer parameter a declared `minimum` lands in `ge` as an
integer bound. -/
theorem buildFieldKwargs_ge_int (spec : ParamSpecCore) (dv : Option PyVal)
    (m : Int) (hm : spec.minimum = some m) :
    (buildFieldKwargs spec dv "integer").ge = some (NumVal.int m) := by
  rcases spec with ⟨ty, fmt, opt, d, mn, mx, mxl, pat, en, hp, desc, mnl, emn, emx⟩
  dsimp only at hm
  subst hm
  cases dv <;> cases mx <;> cases emn <;> cases emx <;> rfl

/-- C9: the optional wrapper is applied after all other type-mapping
steps and is orthogonal to constraint collection — flipping `optional`
appends `" | None"` to the mapped type and leaves the field kwargs
bit-for-bit identical; an integer parameter's `minimum` always lands in
`ge`, optional or not, as the concrete optional `minimum=1` integer
example shows. -/
theorem optional_wrapping_orthogonal :
    (∀ (core : ParamSpecCore) (itemsOpt : Option ParamSpec) (nm : String),
      mapParameterType (ParamSpec.mk { core with optional := true } itemsOpt) nm =
        ((mapParameterType (ParamSpec.mk { core with optional := false } itemsOpt) nm).1
            ++ " | None",
         (mapParameterType (ParamSpec.mk { core with optional := false } itemsOpt) nm).2))
    ∧ (∀ (core : ParamSpecCore) (itemsOpt : Option ParamSpec) (nm : String) (b : Bool),
        (mapParameterType (ParamSpec.mk { core with optional := b } itemsOpt) nm).2 =
          (mapParameterType (ParamSpec.mk { core with optional := false } itemsOpt) nm).2)
    ∧ (∀ (spec : ParamSpecCore) (dv : Option PyVal) (m : Int),
        spec.minimum = some m →
        (buildFieldKwargs spec dv "integer").ge = some (NumVal.int m))
    ∧ (∀ (core : ParamSpecCore) (nm : String) (m : Int),
        core.type_ = some "integer" → core.minimum = some m →
        (mapParameterType (ParamSpec.ofCore core) nm).2.ge = some (NumVal.int m))
    ∧ mapParameterType
        (ParamSpec.ofCore { type_ := some "integer", optional := true, minimum := some 1 })
        "id" = ("int | str | None", { ge := some (NumVal.int 1) })
    ∧ mapParameterType
        (ParamSpec.ofCore { type_ := some "integer", optional := false, minimum := some 1 })
        "id" = ("int | str", { ge := some (NumVal.int 1) }) := by
  refine ⟨mapParameterType_optional, ?_, buildFieldKwargs_ge_int, ?_,
    by decide, by decide⟩
  · intro core itemsOpt nm b
    cases b
    · rfl
    · rw [mapParameterType_optional]
  · intro core nm m ht hm
    have h1 : core.type_.getD "string" = "integer" := by rw [ht]; rfl
    unfold ParamSpec.ofCore mapParameterType
    simp only [h1]
    rw [if_neg (by decide : ¬("integer" : String) = "array"),
      if_neg (by decide : ¬("integer" : String) = "object")]
    show (mapPrimitiveType core nm core.optional core.default).2.ge = some (NumVal.int m)
    unfold mapPrimitiveType
    rw [h1]
    exact buildFieldKwargs_ge_int core core.default m hm

/-- Witness for C9, applying the minimum-to-ge conjunct at the concrete
optional integer parameter with minimum 1. -/
theorem optional_wrapping_orthogonal_witness :
    (mapParameterType
      (ParamSpec.ofCore { type_ := some "integer", optional := true, minimum := some 1 })
      "id").2.ge = some (NumVal.int 1) :=
  optional_wrapping_orthogonal.2.2.2.1
    { type_ := some "integer", optional := true, minimum := some 1 }
    "id" 1 (by decide) (by decide)
